import Mathlib

/-!
Verification development for the victor in-memory vector cache
(`src/victor.c`, `src/types.h`).

The C code is shallowly embedded as follows.

* `float32_t` values are idealised as exact numbers: the L2 kernel works in
  `ℚ` (with `WithTop ℚ` for the `INFINITY` sentinel used as
  `worst_match_value`), the cosine kernel in `ℝ` (its norms need `Real.sqrt`).
* A stored vector slot is the sequence of rationals held in its slab region,
  as a total function `ℕ → ℚ`; only the first `dims_aligned` entries are ever
  read, mirroring the C kernels that read exactly `dims_aligned` floats.
* `struct bucket` keeps `index` (the high-water mark) and `svec`; a slot whose
  pointer was nulled by `delete_vector` is `none`.  In `alloc_bucket` every
  pointer below `svec_size` is set into the zero-initialised slab, hence
  `some` of the all-zero vector.
* `struct table` keeps its function pointers (`compare_vectors`,
  `is_better_match`) as record fields, polymorphic in the score type, exactly
  like the C vtable; `victor_tableL2` and `victor_tableCos` are the two arms
  of the `switch (cmpmode)` in `victor_table`.
* Machine integers: the encoded id is a C `int32_t`; the casts in
  `encode_vector_id` and `delete_vector` are modelled with explicit
  `% 2^8 / % 2^32` arithmetic (`toInt8`, `toInt32`).  C's arithmetic right
  shift `id >> 24` on a 32-bit int is floor division by `2^24`, i.e.
  `Int.ediv` (the divisor is positive), and `id & 0x00FFFFFF` on two's
  complement is `id % 2^24` (mathematical mod, always non-negative).
* Allocation: `malloc` failure is an explicit `Bool` oracle passed to
  `insert_vector` (`true` = allocation succeeds), so the OutOfMemory path of
  the C code is a branch of the model.  `alloc_bucket` itself is pure.
* The `pthread_rwlock` calls delimit the C critical sections; the model is
  sequential, each operation is one atomic function.
* Undefined behaviour boundary: if `delete_vector` is given an id addressing
  an allocated but never-assigned slot, the C code nulls that slot pointer;
  a later `memcpy` into it in `insert_vector` dereferences NULL.  The model
  records such an insert as assigning the slot index without storing the
  vector (the slot stays `none`), keeping that UB visible but total.
-/

/-- A vector (one slab slot, or a caller-supplied query): the idealised
float32 contents, indexed from 0. -/
def Vec : Type := ℕ → ℚ

/-- The all-zero vector: freshly `calloc`ed slab memory. -/
def zeroVec : Vec := fun _ => 0

/-- `memcpy` of the first `dims` floats followed by `memset 0` of the tail,
as performed by `insert_vector` in victor.c (lines 277-278). -/
def padVec (dims : ℕ) (v : Vec) : Vec := fun i => if i < dims then v i else 0

/-- `match_result_t` from types.h: an encoded id and a score. -/
structure MatchResult (α : Type) where
  id : ℤ
  distance : α
deriving DecidableEq

/-- Sign extension of the low 8 bits: the `(int8_t)` cast. -/
def toInt8 (x : ℤ) : ℤ := (x + 128) % 256 - 128

/-- Wrap-around into `int32_t`. -/
def toInt32 (x : ℤ) : ℤ := (x + 2147483648) % 4294967296 - 2147483648

/-- `encode_vector_id` (victor.c lines 116-118):
`((int32_t)bucket << 24) | (slot & 0x00FFFFFF)` where `bucket` arrives through
an `int8_t` parameter cast.  Because the low 24 bits of the shifted bucket are
zero, the bitwise or is addition on the 32-bit patterns. -/
def encode_vector_id (bucket : ℤ) (slot : ℤ) : ℤ :=
  toInt32 (toInt8 bucket * 16777216 + slot % 16777216)

/-- The bucket half of the id decoding in `delete_vector` (victor.c line 303):
`(int8_t)(id >> 24)`; the arithmetic shift is floor division by `2^24`. -/
def decode_bucket (id : ℤ) : ℤ := toInt8 (Int.ediv id 16777216)

/-- The slot half of the id decoding in `delete_vector` (victor.c line 304):
`id & 0x00FFFFFF` on two's complement, i.e. `id mod 2^24`. -/
def decode_slot (id : ℤ) : ℤ := id % 16777216

/-- `ALIGN_DIMS` from types.h: `((d) + 3) & ~3`, i.e. round up to a multiple
of 4. -/
def align_dims (d : ℕ) : ℕ := 4 * ((d + 3) / 4)

/-- `STORE_SIZE` from types.h. -/
def STORE_SIZE : ℕ := 1048576

/-- `MAX_BUCKETS` from types.h. -/
def MAX_BUCKETS : ℕ := 128

/-- `SVEC_SIZE(d)` from types.h: `STORE_SIZE / (d * sizeof(float32_t))`. -/
def SVEC_SIZE (d : ℕ) : ℕ := STORE_SIZE / (d * 4)

/-- `struct bucket`: the high-water mark `index` and the slot pointer array
`svec` (`none` = nulled pointer). -/
structure Bucket where
  index : ℕ
  svec : ℕ → Option Vec

/-- `struct table` with its kernel vtable, polymorphic in the score type
carried by the three kernel fields (the C code stores `float` scores and
function pointers; the two instantiations used are `WithTop ℚ` for L2 and
`ℝ` for cosine). -/
structure Table (α : Type) where
  dims : ℕ
  dims_aligned : ℕ
  svec_size : ℕ
  cmpmode : ℕ
  worst_match_value : α
  is_better_match : α → α → Bool
  compare_vectors : Vec → Vec → ℕ → α
  index : ℕ
  buckets : ℕ → Option Bucket

/-- `alloc_bucket` (victor.c lines 43-66): zero-initialised slab, every slot
pointer below `svec_size` aimed into it, high-water mark 0. -/
def alloc_bucket (svec_size : ℕ) : Bucket :=
  { index := 0
    svec := fun j => if j < svec_size then some zeroVec else none }

/-- The mode-independent body of `victor_table` (victor.c lines 332-366):
compute `dims_aligned` and `svec_size`, install the kernel vtable, allocate
bucket 0, set `index = 0`.  The `switch (cmpmode)` arms are
`victor_tableL2` and `victor_tableCos` below. -/
def victor_table_core (α : Type) (dims cmpmode : ℕ) (worst : α)
    (better : α → α → Bool) (cmp : Vec → Vec → ℕ → α) : Table α :=
  { dims := dims
    dims_aligned := align_dims dims
    svec_size := SVEC_SIZE (align_dims dims)
    cmpmode := cmpmode
    worst_match_value := worst
    is_better_match := better
    compare_vectors := cmp
    index := 0
    buckets := fun i => if i = 0 then some (alloc_bucket (SVEC_SIZE (align_dims dims))) else none }

/-- The shared tail of `insert_vector` (victor.c lines 277-280): copy the
first `dims` floats, zero the tail up to `dims_aligned`, return
`encode_vector_id(table->index, b->index)` and bump the high-water mark.
If the target slot pointer was nulled by a stray earlier delete, the C
`memcpy` would dereference NULL (undefined behaviour); the model advances the
high-water mark without storing the vector. -/
def append_bucket (dims : ℕ) (b : Bucket) (v : Vec) : Bucket :=
  { index := b.index + 1
    svec := match b.svec b.index with
      | none => b.svec
      | some _ => fun j => if j = b.index then some (padVec dims v) else b.svec j }

/-- The result pair of the shared insert tail: the encoded id and the table
with the appended bucket installed at `idx` and `index` set to `idx`. -/
def append_vec (α : Type) (t : Table α) (idx : ℕ) (b : Bucket) (v : Vec) :
    ℤ × Table α :=
  (encode_vector_id (idx : ℤ) (b.index : ℤ),
   { t with index := idx
            buckets := fun i => if i = idx then some (append_bucket t.dims b v) else t.buckets i })

/-- `insert_vector` (victor.c lines 259-283).  `alloc_ok` is the allocation
oracle for the `alloc_bucket` call inside (`false` = `malloc` fails, the
OutOfMemory path).  A `none` current bucket cannot arise from the constructor
and would be a NULL dereference in C; the model returns failure. -/
def insert_vector (α : Type) (alloc_ok : Bool) (t : Table α) (v : Vec) :
    ℤ × Table α :=
  match t.buckets t.index with
  | none => (-1, t)
  | some b =>
    if t.svec_size ≤ b.index then
      if t.index + 1 < MAX_BUCKETS then
        if alloc_ok then
          append_vec α t (t.index + 1) (alloc_bucket t.svec_size) v
        else (-1, t)
      else (-1, t)
    else append_vec α t t.index b v

/-- `delete_vector` (victor.c lines 301-313): decode the id, and if the
bucket index is in `[0, MAX_BUCKETS)`, the bucket exists, the slot index is
below `svec_size` and the slot pointer is non-null, zero the slot memory and
null the pointer.  Always returns 0.  (`iv ≥ 0` holds automatically since
`%` here is the mathematical mod.) -/
def delete_slot_bucket (b : Bucket) (iv : ℕ) : Bucket :=
  { b with svec := fun j => if j = iv then none else b.svec j }

def delete_vector (α : Type) (t : Table α) (id : ℤ) : ℤ × Table α :=
  let ib : ℤ := decode_bucket id
  let iv : ℤ := decode_slot id
  if 0 ≤ ib ∧ ib < (MAX_BUCKETS : ℤ) then
    match t.buckets ib.toNat with
    | none => (0, t)
    | some b =>
      if iv < (t.svec_size : ℤ) then
        match b.svec iv.toNat with
        | none => (0, t)
        | some _ =>
          (0, { t with buckets := fun i =>
                  if i = ib.toNat then some (delete_slot_bucket b iv.toNat) else t.buckets i })
      else (0, t)
  else (0, t)

/-- The live slots of one bucket, in slot order, paired with their encoded
ids: the inner loop `for (j = 0; j < b->index; j++) if (b->svec[j] == NULL)
continue; ...` of both scan routines. -/
def bucket_candidates (i : ℕ) (b : Bucket) : List (ℤ × Vec) :=
  (List.range b.index).filterMap
    (fun j => (b.svec j).map (fun w => (encode_vector_id (i : ℤ) (j : ℤ), w)))

/-- All live slots of the table in scan order: the nested loops
`for (i = 0; i <= table->index; i++) { if (buckets[i] == NULL) continue; ... }`
shared by `search_better_match` and `search_better_n_match`. -/
def candidates (α : Type) (t : Table α) : List (ℤ × Vec) :=
  (List.range (t.index + 1)).flatMap
    (fun i => match t.buckets i with
      | none => []
      | some b => bucket_candidates i b)

/-- One candidate step of the top-1 scan (victor.c lines 159-167). -/
def top1_step (α : Type) (t : Table α) (q : Vec) (best : MatchResult α)
    (c : ℤ × Vec) : MatchResult α :=
  let tmp := t.compare_vectors c.2 q t.dims_aligned
  if t.is_better_match tmp best.distance then { id := c.1, distance := tmp } else best

/-- `search_better_match` (victor.c lines 142-171): top-1 brute-force scan,
starting from `(-1, worst_match_value)`. -/
def search_better_match (α : Type) (t : Table α) (q : Vec) : MatchResult α :=
  (candidates α t).foldl (top1_step α t q) { id := -1, distance := t.worst_match_value }

/-- The effect of `shift_right_mr(&R[k], len)` (victor.c lines 173-180) on
the suffix window `R[k..n-1]` when called with `len = n-k-1`, as in
`search_better_n_match` line 231: entries `R[k..n-3]` move one place right,
`R[n-2]`'s old value is lost, and `R[n-1]` is left untouched.  On the window
list this removes the second-to-last element. -/
def chop (α : Type) : List (MatchResult α) → List (MatchResult α)
  | [] => []
  | [a] => [a]
  | [_, b] => [b]
  | a :: b :: c :: rest => a :: chop α (b :: c :: rest)

/-- The per-candidate update of `search_better_n_match` (victor.c lines
229-236): find the first `k` with `is_better_match(tmp, R[k].distance)`,
call `shift_right_mr(&R[k], n-k-1)` and overwrite `R[k]`; if no such `k`,
leave `R` unchanged.  When `k = n-1` the shift length is 0 and only `R[n-1]`
is overwritten. -/
def updateN (α : Type) (better : α → α → Bool) (c : MatchResult α) :
    List (MatchResult α) → List (MatchResult α)
  | [] => []
  | r :: rest =>
    if better c.distance r.distance then
      match rest with
      | [] => [c]
      | _ :: _ => c :: chop α (r :: rest)
    else r :: updateN α better c rest

/-- `search_better_n_match` (victor.c lines 206-241): allocate and initialise
`n` results to `(-1, worst_match_value)`, then run the per-candidate update
over every live slot.  (The C function also returns a status int that is 0
whenever the result-array `malloc` succeeds, which the model assumes.) -/
def search_better_n_match (α : Type) (t : Table α) (q : Vec) (n : ℕ) :
    List (MatchResult α) :=
  (candidates α t).foldl
    (fun R c => updateN α t.is_better_match
      { id := c.1, distance := t.compare_vectors c.2 q t.dims_aligned } R)
    (List.replicate n { id := -1, distance := t.worst_match_value })

/-- Modelled from the spec: the L2 kernel `euclidean_distance` lives in
math.c, which is not among the provided sources (only its declaration and the
vtable assignment in victor.c are).  Spec §4.1: `compare(a, b, D') =
Σ (a[i] − b[i])²`, reading exactly `D'` elements.  The score is a finite
rational, injected into `WithTop ℚ` so that the table's `INFINITY` sentinel
is `⊤`. -/
def euclidean_distance (a b : Vec) (d : ℕ) : WithTop ℚ :=
  (((Finset.range d).sum (fun i => (a i - b i) ^ 2) : ℚ) : WithTop ℚ)

/-- Modelled from the spec: `euclidean_distance_best` from math.c (missing).
Spec §4.1: lower is better, `is_better(x, y) ≡ x < y`, strict. -/
def euclidean_distance_best (x y : WithTop ℚ) : Bool := decide (x < y)

/-- The `case L2NORM` arm of `victor_table` (victor.c lines 344-347):
`compare_vectors = euclidean_distance`, `is_better_match =
euclidean_distance_best`, `worst_match_value = INFINITY`. -/
def victor_tableL2 (dims : ℕ) : Table (WithTop ℚ) :=
  victor_table_core (WithTop ℚ) dims 1 ⊤ euclidean_distance_best euclidean_distance

/-- Modelled from the spec: the cosine kernel `cosine_similarity` from math.c
(missing).  Spec §4.1: `compare(a, b, D') = (Σ a[i]b[i]) / (‖a‖·‖b‖)`; if
either operand has zero norm the result is the worst value `−1`. -/
noncomputable def cosine_similarity (a b : Vec) (d : ℕ) : ℝ :=
  let num : ℝ := (Finset.range d).sum (fun i => (a i : ℝ) * (b i : ℝ))
  let na : ℝ := Real.sqrt ((Finset.range d).sum (fun i => (a i : ℝ) ^ 2))
  let nb : ℝ := Real.sqrt ((Finset.range d).sum (fun i => (b i : ℝ) ^ 2))
  if na = 0 ∨ nb = 0 then -1 else num / (na * nb)

/-- Modelled from the spec: `cosine_similarity_best` from math.c (missing).
Spec §4.1: higher is better, `is_better(x, y) ≡ x > y`, strict. -/
noncomputable def cosine_similarity_best (x y : ℝ) : Bool := decide (y < x)

/-- The `case COSINE` arm of `victor_table` (victor.c lines 349-353):
`worst_match_value = -1.0`. -/
noncomputable def victor_tableCos (dims : ℕ) : Table ℝ :=
  victor_table_core ℝ dims 2 (-1) cosine_similarity_best cosine_similarity

/-- The specification's naive reference for top-N (spec §4.4 and §8.5,
"the `n` best live entries determined by a naive exhaustive sort"): insert a
scored candidate in front of the first strictly-worse entry of a sorted list
(so equal scores keep insertion order, the spec's tie-break). -/
def spec_insert_sorted (α : Type) (better : α → α → Bool) (c : MatchResult α) :
    List (MatchResult α) → List (MatchResult α)
  | [] => [c]
  | r :: rest =>
    if better c.distance r.distance then c :: r :: rest
    else r :: spec_insert_sorted α better c rest

/-- The specification's naive top-N (spec §4.4): sort all live candidates
best-first by an exhaustive stable sort, take the first `n`, pad the tail
with `(-1, worst_value)`. -/
def spec_top_n (α : Type) (t : Table α) (q : Vec) (n : ℕ) :
    List (MatchResult α) :=
  let sorted := (candidates α t).foldl
    (fun acc c => spec_insert_sorted α t.is_better_match
      { id := c.1, distance := t.compare_vectors c.2 q t.dims_aligned } acc) []
  sorted.take n ++ List.replicate (n - sorted.length)
    { id := -1, distance := t.worst_match_value }

/-- C5 helper: sign extension is the identity on `[0, 128)`. -/
theorem toInt8_of_lt (b : ℤ) (h0 : 0 ≤ b) (h1 : b < 128) : toInt8 b = b := by
  unfold toInt8
  omega

/-- C5 helper: the int32 wrap is the identity inside the int32 range. -/
theorem toInt32_of_range (x : ℤ) (h0 : -2147483648 ≤ x) (h1 : x < 2147483648) :
    toInt32 x = x := by
  unfold toInt32
  omega

/-- In-range encodes are just `b * 2^24 + s`. -/
theorem encode_eval (b s : ℤ) (hb0 : 0 ≤ b) (hb : b < 128)
    (hs0 : 0 ≤ s) (hs : s < 16777216) :
    encode_vector_id b s = b * 16777216 + s := by
  unfold encode_vector_id
  rw [toInt8_of_lt b hb0 hb]
  have hmod : s % 16777216 = s := Int.emod_eq_of_lt hs0 hs
  rw [hmod, toInt32_of_range] <;> nlinarith

/-- `Int.ediv` is the `/` of `ℤ`, definitionally. -/
theorem ediv_as_div (a b : ℤ) : Int.ediv a b = a / b := rfl

/-- C5: decoding an in-range encode recovers the bucket index. -/
theorem decode_bucket_encode (b s : ℤ) (hb0 : 0 ≤ b) (hb : b < 128)
    (hs0 : 0 ≤ s) (hs : s < 16777216) :
    decode_bucket (encode_vector_id b s) = b := by
  rw [encode_eval b s hb0 hb hs0 hs]
  unfold decode_bucket toInt8
  rw [ediv_as_div]
  omega

/-- C5: decoding an in-range encode recovers the slot index. -/
theorem decode_slot_encode (b s : ℤ) (hb0 : 0 ≤ b) (hb : b < 128)
    (hs0 : 0 ≤ s) (hs : s < 16777216) :
    decode_slot (encode_vector_id b s) = s := by
  rw [encode_eval b s hb0 hb hs0 hs]
  unfold decode_slot
  omega

/-- C5: For every bucket index `b` with `0 ≤ b < 128` and slot index `s` with
`0 ≤ s < 2^24`, decoding the encoded 32-bit id yields back exactly `(b, s)`:
the sign-extended top byte is `b` and the low 24 bits are `s`. -/
theorem claim_C5_codec_roundtrip (b s : ℤ) (hb0 : 0 ≤ b) (hb : b < 128)
    (hs0 : 0 ≤ s) (hs : s < 16777216) :
    decode_bucket (encode_vector_id b s) = b ∧
    decode_slot (encode_vector_id b s) = s :=
  ⟨decode_bucket_encode b s hb0 hb hs0 hs, decode_slot_encode b s hb0 hb hs0 hs⟩

/-- C5 witness at `b = 101`, `s = 4242`. -/
theorem claim_C5_codec_roundtrip_witness :
    decode_bucket (encode_vector_id 101 4242) = 101 ∧
    decode_slot (encode_vector_id 101 4242) = 4242 :=
  claim_C5_codec_roundtrip 101 4242 (by decide) (by decide) (by decide) (by decide)

/-- Concrete vector `[1]` (padded with zeros), used for evaluations. -/
def cV1 : Vec := fun i => if i = 0 then 1 else 0

/-- Concrete vector `[2]`. -/
def cV2 : Vec := fun i => if i = 0 then 2 else 0

/-- The zero query/vector. -/
def cV0 : Vec := fun _ => 0

/-- An L2 table of dimension 1 holding `[1]` (id 0). -/
def cT1 : Table (WithTop ℚ) := (insert_vector _ true (victor_tableL2 1) cV1).2

/-- `cT1` after additionally inserting `[0]` (id 1). -/
def cT2 : Table (WithTop ℚ) := (insert_vector _ true cT1 cV0).2

/-- C1: evaluation of the code at the failing input.  On the dimension-1 L2
table holding `[1]` (id 0, distance 1 from the zero query) and `[0]` (id 1,
distance 0), `search_n(q = 0, n = 2)` returns `[(1, 0), (-1, ∞)]`: the call
`shift_right_mr(&R[k], n-k-1)` at victor.c line 231 moves only `R[k..n-3]`
and never writes `R[n-1]`, so inserting the new best drops the incumbent
`(0, 1)` instead of the worst entry, while the naive exhaustive sort of the
live entries gives `[(1, 0), (0, 1)]`.  The multiset of returned `(id,
score)` pairs therefore differs from the `min(n, live_count)` best live
slots, contradicting the claim (and the function's own documentation). -/
theorem claim_C1_shift_right_bug :
    search_better_n_match (WithTop ℚ) cT2 cV0 2 =
      [{ id := 1, distance := ((0 : ℚ) : WithTop ℚ) },
       { id := -1, distance := ⊤ }] ∧
    spec_top_n (WithTop ℚ) cT2 cV0 2 =
      [{ id := 1, distance := ((0 : ℚ) : WithTop ℚ) },
       { id := 0, distance := ((1 : ℚ) : WithTop ℚ) }] ∧
    search_better_n_match (WithTop ℚ) cT2 cV0 2 ≠
      spec_top_n (WithTop ℚ) cT2 cV0 2 := by
  refine ⟨?_, ?_, ?_⟩ <;>
  simp [cT2, cT1, victor_tableL2, victor_table_core, insert_vector, append_vec, append_bucket,
    search_better_n_match, spec_top_n, candidates, bucket_candidates,
    updateN, chop, spec_insert_sorted,
    euclidean_distance, euclidean_distance_best, alloc_bucket, cV1, cV0,
    SVEC_SIZE, STORE_SIZE, MAX_BUCKETS, align_dims, encode_vector_id, toInt8, toInt32,
    List.range_succ, Finset.sum_range_succ, padVec, zeroVec, List.replicate]

/-- `cT1` after inserting `[1]` a second time (id 1). -/
def cT2dup : Table (WithTop ℚ) := (insert_vector _ true cT1 cV1).2

/-- C2 counterexample: inserting the non-zero vector `[1]` into an L2 table
that already holds an identical vector yields id 1, but the immediate
`search([1])` returns id 0 — the earlier duplicate — because `is_better` is
strict and the equal score does not displace the incumbent.  The claim's
`(i, 0)` return is therefore false as stated (the score is 0, the id is
not `i`). -/
theorem claim_C2_counterexample :
    cV1 0 ≠ 0 ∧
    (insert_vector (WithTop ℚ) true cT1 cV1).1 = 1 ∧
    (search_better_match (WithTop ℚ) cT2dup cV1).id = 0 ∧
    (search_better_match (WithTop ℚ) cT2dup cV1).distance =
      ((0 : ℚ) : WithTop ℚ) := by
  refine ⟨by norm_num [cV1], ?_, ?_, ?_⟩ <;>
  simp [cT2dup, cT1, victor_tableL2, victor_table_core, insert_vector, append_vec, append_bucket,
    search_better_match, candidates, bucket_candidates, top1_step,
    euclidean_distance, euclidean_distance_best, alloc_bucket, cV1,
    SVEC_SIZE, STORE_SIZE, MAX_BUCKETS, align_dims, encode_vector_id, toInt8, toInt32,
    List.range_succ, Finset.sum_range_succ, padVec, zeroVec]

/-- `p` is not worse than `q`: the score of `q` does not beat the score of
`p` under the table's `is_better_match`.  The scan results are sorted
best-first exactly when consecutive entries satisfy this. -/
def notWorse (α : Type) (better : α → α → Bool) (p q : MatchResult α) : Prop :=
  better q.distance p.distance = false

/-- The comparator properties of a strict order (spec §4.4: `is_better` is
strict, `<` or `>`): asymmetry, transitivity, and transitivity of the
negation.  Both mode comparators satisfy them. -/
def BetterStrict (α : Type) (better : α → α → Bool) : Prop :=
  (∀ x y, better x y = true → better y x = false) ∧
  (∀ x y z, better x y = true → better y z = true → better x z = true) ∧
  (∀ x y z, better x y = false → better y z = false → better x z = false)

/-- A strict comparator is irreflexive. -/
theorem better_irrefl (α : Type) (better : α → α → Bool)
    (h : BetterStrict α better) (x : α) : better x x = false := by
  cases hb : better x x
  · rfl
  · have hf := h.1 x x hb
    rw [hb] at hf
    exact hf

/-- `notWorse` is transitive for a strict comparator. -/
theorem notWorse_trans (α : Type) (better : α → α → Bool)
    (h : BetterStrict α better) (p q r : MatchResult α) :
    notWorse α better p q → notWorse α better q r → notWorse α better p r :=
  fun hpq hqr => h.2.2 r.distance q.distance p.distance hqr hpq

/-- `chop` removes one element, hence yields a sublist. -/
theorem chop_sublist (α : Type) :
    ∀ l : List (MatchResult α), (chop α l).Sublist l
  | [] => by simp [chop]
  | [a] => by simp [chop]
  | [a, b] => by
      simp only [chop]
      exact (List.Sublist.refl [b]).cons a
  | a :: b :: c :: rest => by
      simp only [chop]
      exact (chop_sublist α (b :: c :: rest)).cons₂ a

/-- The head of `chop (r :: rest)` is `r`, except when `rest` is a singleton
`[b]`, in which case it is `b`. -/
theorem chop_cons_head (α : Type) (r : MatchResult α)
    (rest : List (MatchResult α)) :
    (chop α (r :: rest)).head? = some r ∨
    ∃ b, rest = [b] ∧ (chop α (r :: rest)).head? = some b := by
  cases rest with
  | nil => exact Or.inl rfl
  | cons b rest' =>
    cases rest' with
    | nil => exact Or.inr ⟨b, rfl, rfl⟩
    | cons c rest'' => exact Or.inl rfl

/-- The head of a per-candidate update on a non-empty list is the candidate
itself (when it beats the head) or the unchanged head. -/
theorem updateN_cons_head (α : Type) (better : α → α → Bool)
    (c x : MatchResult α) (xs : List (MatchResult α)) :
    (better c.distance x.distance = true ∧
      (updateN α better c (x :: xs)).head? = some c) ∨
    (better c.distance x.distance = false ∧
      (updateN α better c (x :: xs)).head? = some x) := by
  cases hb : better c.distance x.distance
  · exact Or.inr ⟨rfl, by cases xs <;> simp [updateN, hb]⟩
  · exact Or.inl ⟨rfl, by cases xs <;> simp [updateN, hb]⟩

/-- The per-candidate update of `search_better_n_match` preserves
best-first sortedness (even with the off-by-one `shift_right_mr` window, the
surviving entries stay in order). -/
theorem updateN_chain (α : Type) (better : α → α → Bool)
    (h : BetterStrict α better) (c : MatchResult α) :
    ∀ l : List (MatchResult α), List.Chain' (notWorse α better) l →
      List.Chain' (notWorse α better) (updateN α better c l) := by
  haveI : IsTrans (MatchResult α) (notWorse α better) :=
    ⟨fun p q r => notWorse_trans α better h p q r⟩
  intro l
  induction l with
  | nil => intro _; simp [updateN]
  | cons r rest ih =>
    intro hl
    have hrest : List.Chain' (notWorse α better) rest := hl.tail
    cases hb : better c.distance r.distance
    · have hres : updateN α better c (r :: rest) = r :: updateN α better c rest := by
        simp [updateN, hb]
      rw [hres]
      refine List.chain'_cons'.2 ⟨?_, ih hrest⟩
      intro y hy
      cases rest with
      | nil => simp [updateN] at hy
      | cons x xs =>
        rcases updateN_cons_head α better c x xs with ⟨hbx, hh⟩ | ⟨hbx, hh⟩
        · rw [hh] at hy
          simp only [Option.mem_some_iff] at hy
          subst hy
          exact hb
        · rw [hh] at hy
          simp only [Option.mem_some_iff] at hy
          subst hy
          exact (List.chain'_cons.1 hl).1
    · cases rest with
      | nil =>
        simp [updateN, hb]
      | cons x xs =>
        have hres : updateN α better c (r :: x :: xs) =
            c :: chop α (r :: x :: xs) := by
          simp [updateN, hb]
        rw [hres]
        refine List.chain'_cons'.2 ⟨?_, hl.sublist (chop_sublist α (r :: x :: xs))⟩
        intro y hy
        rcases chop_cons_head α r (x :: xs) with h1 | ⟨b, hbx, h2⟩
        · rw [h1] at hy
          simp only [Option.mem_some_iff] at hy
          subst hy
          exact h.1 c.distance r.distance hb
        · injection hbx with hx hxs
          subst hx
          subst hxs
          rw [h2] at hy
          simp only [Option.mem_some_iff] at hy
          subst hy
          have hrx : notWorse α better r x := (List.chain'_cons.1 hl).1
          cases hxc : better x.distance c.distance
          · exact hxc
          · have hxr := h.2.1 x.distance c.distance r.distance hxc hb
            rw [hrx] at hxr
            exact absurd hxr (by simp)

/-- A constant list is a chain for any relation that relates the constant to
itself. -/
theorem chain'_replicate_self (α : Type) (R : MatchResult α → MatchResult α → Prop)
    (c : MatchResult α) (hc : R c c) :
    ∀ n : ℕ, List.Chain' R (List.replicate n c)
  | 0 => by simp
  | n + 1 => by
      rw [List.replicate_succ]
      refine List.chain'_cons'.2 ⟨?_, chain'_replicate_self α R c hc n⟩
      intro y hy
      cases n with
      | zero => simp at hy
      | succ m =>
        rw [List.replicate_succ] at hy
        simp only [List.head?_cons, Option.mem_some_iff] at hy
        subst hy
        exact hc

/-- C6 main part: the result array of `search_better_n_match` is sorted
best-first whenever the table's comparator is strict. -/
theorem search_better_n_match_chain (α : Type) (t : Table α) (q : Vec) (n : ℕ)
    (h : BetterStrict α t.is_better_match) :
    List.Chain' (notWorse α t.is_better_match) (search_better_n_match α t q n) := by
  unfold search_better_n_match
  have main : ∀ (cs : List (ℤ × Vec)) (R : List (MatchResult α)),
      List.Chain' (notWorse α t.is_better_match) R →
      List.Chain' (notWorse α t.is_better_match)
        (cs.foldl (fun R c => updateN α t.is_better_match
          { id := c.1, distance := t.compare_vectors c.2 q t.dims_aligned } R) R) := by
    intro cs
    induction cs with
    | nil => intro R hR; exact hR
    | cons c cs ih =>
      intro R hR
      exact ih _ (updateN_chain α t.is_better_match h _ R hR)
  exact main _ _ (chain'_replicate_self α _ _
    (better_irrefl α t.is_better_match h t.worst_match_value) n)

/-- Entries at or before a sorted position are never beaten by that
position's score. -/
theorem chain_get_notBetter (α : Type) (better : α → α → Bool)
    (h : BetterStrict α better) (l : List (MatchResult α))
    (hl : List.Chain' (notWorse α better) l) (k j : ℕ) (hkj : k ≤ j)
    (hj : j < l.length) (hk : k < l.length) :
    better (l.get ⟨j, hj⟩).distance (l.get ⟨k, hk⟩).distance = false := by
  haveI : IsTrans (MatchResult α) (notWorse α better) :=
    ⟨fun p q r => notWorse_trans α better h p q r⟩
  rcases Nat.lt_or_ge k j with hlt | hge
  · have hp := (List.chain'_iff_pairwise.1 hl)
    exact (List.pairwise_iff_get.1 hp) ⟨k, hk⟩ ⟨j, hj⟩ hlt
  · have hkj' : k = j := Nat.le_antisymm hkj hge
    subst hkj'
    exact better_irrefl α better h _

/-- If a candidate beats no entry at positions `0..j`, the per-candidate
update leaves the first `j+1` entries unchanged. -/
theorem updateN_take_of_notBetter (α : Type) (better : α → α → Bool)
    (c : MatchResult α) :
    ∀ (j : ℕ) (l : List (MatchResult α)),
      (∀ (k : ℕ) (hk : k < l.length), k ≤ j →
        better c.distance (l.get ⟨k, hk⟩).distance = false) →
      (updateN α better c l).take (j + 1) = l.take (j + 1)
  | _, [], _ => by simp [updateN]
  | 0, r :: rest, hko => by
      have h0 := hko 0 (by simp) (Nat.le_refl 0)
      simp only [List.get] at h0
      simp [updateN, h0]
  | j + 1, r :: rest, hko => by
      have h0 := hko 0 (by simp) (Nat.zero_le _)
      simp only [List.get] at h0
      have ih := updateN_take_of_notBetter α better c j rest
        (fun k hk hkj => hko (k + 1) (by simpa using Nat.succ_lt_succ hk)
          (Nat.succ_le_succ hkj))
      simp only [updateN, h0, Bool.false_eq_true, if_false, List.take_succ_cons, ih]

/-- The L2 comparator (strict `<` on `WithTop ℚ`) is a strict order. -/
theorem euclidean_best_strict : BetterStrict (WithTop ℚ) euclidean_distance_best := by
  refine ⟨?_, ?_, ?_⟩
  · intro x y hxy
    have h1 : x < y := of_decide_eq_true hxy
    exact decide_eq_false (lt_asymm h1)
  · intro x y z hxy hyz
    exact decide_eq_true (lt_trans (of_decide_eq_true hxy) (of_decide_eq_true hyz))
  · intro x y z hxy hyz
    have h1 : y ≤ x := not_lt.1 (of_decide_eq_false hxy)
    have h2 : z ≤ y := not_lt.1 (of_decide_eq_false hyz)
    exact decide_eq_false (not_lt.2 (le_trans h2 h1))

/-- The cosine comparator (strict `>` on `ℝ`) is a strict order. -/
theorem cosine_best_strict : BetterStrict ℝ cosine_similarity_best := by
  refine ⟨?_, ?_, ?_⟩
  · intro x y hxy
    have h1 : y < x := of_decide_eq_true hxy
    exact decide_eq_false (lt_asymm h1)
  · intro x y z hxy hyz
    exact decide_eq_true (lt_trans (of_decide_eq_true hyz) (of_decide_eq_true hxy))
  · intro x y z hxy hyz
    have h1 : x ≤ y := not_lt.1 (of_decide_eq_false hxy)
    have h2 : y ≤ z := not_lt.1 (of_decide_eq_false hyz)
    exact decide_eq_false (not_lt.2 (le_trans h1 h2))

/-- C6: For every table state, query vector and `n`, the array returned by
`search_n(q, n)` is sorted best-first — index `k+1`'s score is never strictly
better than index `k`'s under the mode's (strict) `is_better` — and, because
`is_better` is strict, a candidate whose score equals an incumbent's does not
displace it: the per-candidate update leaves every entry up to and including
the incumbent's position unchanged, so the earlier-inserted candidate keeps
its position. -/
theorem claim_C6_sorted_best_first (α : Type) (t : Table α) (q : Vec) (n : ℕ)
    (h : BetterStrict α t.is_better_match) :
    (∀ (k : ℕ) (hk : k + 1 < (search_better_n_match α t q n).length),
      t.is_better_match
        ((search_better_n_match α t q n).get ⟨k + 1, hk⟩).distance
        ((search_better_n_match α t q n).get ⟨k, Nat.lt_of_succ_lt hk⟩).distance
        = false) ∧
    (∀ (R : List (MatchResult α)) (id' : ℤ) (j : ℕ) (hj : j < R.length),
      List.Chain' (notWorse α t.is_better_match) R →
      (updateN α t.is_better_match
        { id := id', distance := (R.get ⟨j, hj⟩).distance } R).take (j + 1) =
        R.take (j + 1)) := by
  constructor
  · intro k hk
    have hc := search_better_n_match_chain α t q n h
    have hg := List.chain'_iff_get.1 hc k (by omega)
    exact hg
  · intro R id' j hj hR
    apply updateN_take_of_notBetter
    intro k hk hkj
    exact chain_get_notBetter α t.is_better_match h R hR k j hkj hj hk

/-- C6 witness: the hypothesis (a strict comparator) and the conclusion hold
for the concrete dimension-1 L2 table `cT2`, query `0`, `n = 2`. -/
theorem claim_C6_sorted_best_first_witness :
    BetterStrict (WithTop ℚ) (cT2.is_better_match) ∧
    ((∀ (k : ℕ) (hk : k + 1 < (search_better_n_match (WithTop ℚ) cT2 cV0 2).length),
      cT2.is_better_match
        ((search_better_n_match (WithTop ℚ) cT2 cV0 2).get ⟨k + 1, hk⟩).distance
        ((search_better_n_match (WithTop ℚ) cT2 cV0 2).get
          ⟨k, Nat.lt_of_succ_lt hk⟩).distance = false) ∧
    (∀ (R : List (MatchResult (WithTop ℚ))) (id' : ℤ) (j : ℕ) (hj : j < R.length),
      List.Chain' (notWorse (WithTop ℚ) cT2.is_better_match) R →
      (updateN (WithTop ℚ) cT2.is_better_match
        { id := id', distance := (R.get ⟨j, hj⟩).distance } R).take (j + 1) =
        R.take (j + 1))) :=
  ⟨euclidean_best_strict,
   claim_C6_sorted_best_first (WithTop ℚ) cT2 cV0 2 euclidean_best_strict⟩

/-- Encoded ids with a bucket index in `[0, 128)` are non-negative. -/
theorem encode_nonneg (bk s : ℤ) (h0 : 0 ≤ bk) (h1 : bk < 128) (hs : 0 ≤ s) :
    0 ≤ encode_vector_id bk s := by
  unfold encode_vector_id toInt8 toInt32
  omega

/-- `insert_vector` never changes `svec_size`. -/
theorem insert_svec_size (α : Type) (ok : Bool) (t : Table α) (v : Vec) :
    (insert_vector α ok t v).2.svec_size = t.svec_size := by
  unfold insert_vector append_vec
  cases t.buckets t.index
  · rfl
  · dsimp only
    split
    · split
      · split <;> rfl
      · rfl
    · rfl

/-- `delete_vector` never changes `svec_size`. -/
theorem delete_svec_size (α : Type) (t : Table α) (id : ℤ) :
    (delete_vector α t id).2.svec_size = t.svec_size := by
  unfold delete_vector
  dsimp only
  split
  · cases t.buckets (decode_bucket id).toNat
    · rfl
    · dsimp only
      split
      · split <;> rfl
      · rfl
  · rfl

/-- `delete_vector` always returns 0 (victor.c line 312). -/
theorem delete_vector_fst (α : Type) (t : Table α) (id : ℤ) :
    (delete_vector α t id).1 = 0 := by
  unfold delete_vector
  dsimp only
  split
  · cases t.buckets (decode_bucket id).toNat
    · rfl
    · dsimp only
      split
      · split <;> rfl
      · rfl
  · rfl

/-- The table invariant after `k` successful inserts (spec §3 "Table" and
§8.7): writing `N = svec_size`, the current bucket index is `⌊(k-1)/N⌋`,
every earlier bucket is full, the current bucket exists and holds exactly
`k - index·N` assigned slots, no bucket beyond the current one is allocated,
and the bucket index is below `MAX_BUCKETS`. -/
def TableInv (α : Type) (t : Table α) (k : ℕ) : Prop :=
  (t.index = if k = 0 then 0 else (k - 1) / t.svec_size) ∧
  (∀ i : ℕ, i < t.index → ∃ b : Bucket, t.buckets i = some b ∧ b.index = t.svec_size) ∧
  (∃ b : Bucket, t.buckets t.index = some b ∧
    k = t.index * t.svec_size + b.index ∧ b.index ≤ t.svec_size) ∧
  (∀ i : ℕ, t.index < i → t.buckets i = none) ∧
  t.index < MAX_BUCKETS

/-- The freshly constructed table satisfies the invariant with `k = 0`. -/
theorem TableInv_base (α : Type) (dims cm : ℕ) (worst : α)
    (bet : α → α → Bool) (cmp : Vec → Vec → ℕ → α) :
    TableInv α (victor_table_core α dims cm worst bet cmp) 0 := by
  refine ⟨by simp [victor_table_core], ?_, ?_, ?_, ?_⟩
  · intro i hi
    simp [victor_table_core] at hi
  · refine ⟨alloc_bucket (SVEC_SIZE (align_dims dims)), ?_, ?_, ?_⟩ <;>
      simp [victor_table_core, alloc_bucket]
  · intro i hi
    simp only [victor_table_core] at *
    have : i ≠ 0 := by omega
    simp [this]
  · simp [victor_table_core, MAX_BUCKETS]


/-- The id returned through the shared insert tail. -/
theorem append_vec_fst (α : Type) (t : Table α) (idx : ℕ) (b : Bucket) (v : Vec) :
    (append_vec α t idx b v).1 = encode_vector_id (idx : ℤ) (b.index : ℤ) := rfl

/-- The table returned through the shared insert tail. -/
theorem append_vec_snd_index (α : Type) (t : Table α) (idx : ℕ) (b : Bucket) (v : Vec) :
    (append_vec α t idx b v).2.index = idx := rfl

theorem append_vec_snd_svec_size (α : Type) (t : Table α) (idx : ℕ) (b : Bucket) (v : Vec) :
    (append_vec α t idx b v).2.svec_size = t.svec_size := rfl

theorem append_vec_snd_buckets (α : Type) (t : Table α) (idx : ℕ) (b : Bucket) (v : Vec)
    (i : ℕ) :
    (append_vec α t idx b v).2.buckets i =
      if i = idx then some (append_bucket t.dims b v) else t.buckets i := rfl

theorem append_bucket_index (dims : ℕ) (b : Bucket) (v : Vec) :
    (append_bucket dims b v).index = b.index + 1 := rfl

/-- Insert step: a failing insert leaves the state unchanged, and a
successful one re-establishes the invariant with `k + 1`. -/
theorem TableInv_insert (α : Type) (t : Table α) (k : ℕ)
    (hN : 0 < t.svec_size) (hInv : TableInv α t k) (ok : Bool) (v : Vec) :
    ((insert_vector α ok t v).1 = -1 → (insert_vector α ok t v).2 = t) ∧
    ((insert_vector α ok t v).1 ≠ -1 →
      TableInv α (insert_vector α ok t v).2 (k + 1)) := by
  obtain ⟨hA, hB, ⟨b, hb, hk, hble⟩, hD, hE⟩ := hInv
  have hE128 : t.index < 128 := by simpa [MAX_BUCKETS] using hE
  by_cases hfull : t.svec_size ≤ b.index
  · have hiw : b.index = t.svec_size := Nat.le_antisymm hble hfull
    by_cases hcap : t.index + 1 < MAX_BUCKETS
    · have hcap128 : t.index + 1 < 128 := by simpa [MAX_BUCKETS] using hcap
      cases ok with
      | false =>
        have hres : insert_vector α false t v = (-1, t) := by
          unfold insert_vector
          rw [hb]
          simp [hfull, hcap]
        rw [hres]
        exact ⟨fun _ => rfl, fun hne => absurd rfl hne⟩
      | true =>
        have hres : insert_vector α true t v =
            append_vec α t (t.index + 1) (alloc_bucket t.svec_size) v := by
          unfold insert_vector
          rw [hb]
          simp [hfull, hcap]
        rw [hres]
        constructor
        · intro h1
          rw [append_vec_fst] at h1
          have h2 : (0 : ℤ) ≤ encode_vector_id (↑(t.index + 1)) (↑(alloc_bucket t.svec_size).index) :=
            encode_nonneg _ _ (by omega) (by omega) (by omega)
          omega
        · intro _
          refine ⟨?_, ?_, ?_, ?_, ?_⟩
          · rw [append_vec_snd_index, append_vec_snd_svec_size]
            have hknz : ¬ (k + 1 = 0) := by omega
            simp only [hknz, if_false]
            have hkval : k = (t.index + 1) * t.svec_size := by
              rw [hk, hiw]; ring
            rw [Nat.add_sub_cancel, hkval, Nat.mul_div_cancel _ hN]
          · intro i hi
            rw [append_vec_snd_index] at hi
            rw [append_vec_snd_buckets, append_vec_snd_svec_size]
            rw [if_neg (show ¬ (i = t.index + 1) by omega)]
            rcases Nat.lt_or_ge i t.index with hlt | hge
            · obtain ⟨b2, hb2, hbi2⟩ := hB i hlt
              exact ⟨b2, hb2, hbi2⟩
            · have hieq : i = t.index := by omega
              rw [hieq]
              exact ⟨b, hb, hiw⟩
          · rw [append_vec_snd_index, append_vec_snd_buckets, append_vec_snd_svec_size]
            simp only [if_pos rfl]
            refine ⟨append_bucket t.dims (alloc_bucket t.svec_size) v, rfl, ?_, ?_⟩
            · rw [append_bucket_index]
              show k + 1 = (t.index + 1) * t.svec_size + ((alloc_bucket t.svec_size).index + 1)
              rw [hk, hiw]
              show t.index * t.svec_size + t.svec_size + 1 = (t.index + 1) * t.svec_size + (0 + 1)
              ring
            · rw [append_bucket_index]
              show (alloc_bucket t.svec_size).index + 1 ≤ t.svec_size
              show 0 + 1 ≤ t.svec_size
              omega
          · intro i hi
            rw [append_vec_snd_index] at hi
            rw [append_vec_snd_buckets, if_neg (show ¬ (i = t.index + 1) by omega)]
            exact hD i (by omega)
          · rw [append_vec_snd_index]
            exact hcap
    · have hres : insert_vector α ok t v = (-1, t) := by
        unfold insert_vector
        rw [hb]
        simp [hfull, hcap]
      rw [hres]
      exact ⟨fun _ => rfl, fun hne => absurd rfl hne⟩
  · have hlt : b.index < t.svec_size := Nat.lt_of_not_le hfull
    have hres : insert_vector α ok t v = append_vec α t t.index b v := by
      unfold insert_vector
      rw [hb]
      simp [hfull]
    rw [hres]
    constructor
    · intro h1
      rw [append_vec_fst] at h1
      have h2 : (0 : ℤ) ≤ encode_vector_id (↑t.index) (↑b.index) :=
        encode_nonneg _ _ (by omega) (by omega) (by omega)
      omega
    · intro _
      refine ⟨?_, ?_, ?_, ?_, ?_⟩
      · rw [append_vec_snd_index, append_vec_snd_svec_size]
        have hknz : ¬ (k + 1 = 0) := by omega
        simp only [hknz, if_false]
        rw [Nat.add_sub_cancel, hk, Nat.add_comm,
          Nat.add_mul_div_right _ _ hN, Nat.div_eq_of_lt hlt, Nat.zero_add]
      · intro i hi
        rw [append_vec_snd_index] at hi
        rw [append_vec_snd_buckets, append_vec_snd_svec_size]
        obtain ⟨b2, hb2, hbi2⟩ := hB i hi
        rw [if_neg (show ¬ (i = t.index) by omega)]
        exact ⟨b2, hb2, hbi2⟩
      · rw [append_vec_snd_index, append_vec_snd_buckets, append_vec_snd_svec_size]
        simp only [if_pos rfl]
        refine ⟨append_bucket t.dims b v, rfl, ?_, ?_⟩
        · rw [append_bucket_index]
          omega
        · rw [append_bucket_index]
          omega
      · intro i hi
        rw [append_vec_snd_index] at hi
        rw [append_vec_snd_buckets, if_neg (show ¬ (i = t.index) by omega)]
        exact hD i hi
      · rw [append_vec_snd_index]
        exact hE

/-- `delete_vector` either leaves the table unchanged or nulls exactly one
slot pointer of one existing bucket. -/
theorem delete_vector_snd_cases (α : Type) (t : Table α) (id : ℤ) :
    (delete_vector α t id).2 = t ∨
    ∃ b : Bucket, t.buckets (decode_bucket id).toNat = some b ∧
      (delete_vector α t id).2 = { t with buckets := fun i =>
        if i = (decode_bucket id).toNat then some (delete_slot_bucket b (decode_slot id).toNat) else t.buckets i } := by
  unfold delete_vector
  by_cases h1 : 0 ≤ decode_bucket id ∧ decode_bucket id < (MAX_BUCKETS : ℤ)
  · rw [if_pos h1]
    cases hb : t.buckets (decode_bucket id).toNat with
    | none => exact Or.inl rfl
    | some b =>
      dsimp only
      by_cases h2 : decode_slot id < (t.svec_size : ℤ)
      · rw [if_pos h2]
        cases hsv : b.svec (decode_slot id).toNat with
        | none => exact Or.inl rfl
        | some w => exact Or.inr ⟨b, rfl, rfl⟩
      · rw [if_neg h2]
        exact Or.inl rfl
  · rw [if_neg h1]
    exact Or.inl rfl

/-- Deletion preserves the table invariant (it does not touch `index`,
`high_water` marks, or bucket allocation). -/
theorem TableInv_delete (α : Type) (t : Table α) (k : ℕ) (id : ℤ)
    (hInv : TableInv α t k) : TableInv α (delete_vector α t id).2 k := by
  rcases delete_vector_snd_cases α t id with h | ⟨b, hb, h⟩
  · rw [h]; exact hInv
  · rw [h]
    obtain ⟨hA, hB, ⟨bc, hbc, hk, hble⟩, hD, hE⟩ := hInv
    refine ⟨hA, ?_, ?_, ?_, hE⟩
    · intro i hi
      try dsimp only at hi
      try dsimp only
      obtain ⟨b2, hb2, hbi2⟩ := hB i hi
      by_cases hieq : i = (decode_bucket id).toNat
      · have hbb : b2 = b := by
          rw [hieq] at hb2
          rw [hb] at hb2
          exact (Option.some.inj hb2).symm
        rw [if_pos hieq]
        exact ⟨_, rfl, by show b.index = t.svec_size; rw [← hbb]; exact hbi2⟩
      · rw [if_neg hieq]
        exact ⟨b2, hb2, hbi2⟩
    · try dsimp only
      by_cases hieq : t.index = (decode_bucket id).toNat
      · have hbb : bc = b := by
          rw [hieq] at hbc
          rw [hb] at hbc
          exact (Option.some.inj hbc).symm
        rw [if_pos hieq]
        refine ⟨_, rfl, ?_, ?_⟩
        · show k = t.index * t.svec_size + b.index
          rw [hbb] at hk
          exact hk
        · show b.index ≤ t.svec_size
          rw [hbb] at hble
          exact hble
      · rw [if_neg hieq]
        exact ⟨bc, hbc, hk, hble⟩
    · intro i hi
      try dsimp only at hi
      try dsimp only
      by_cases hieq : i = (decode_bucket id).toNat
      · exfalso
        have hnone := hD i hi
        rw [hieq] at hnone
        rw [hnone] at hb
        exact Option.noConfusion hb
      · rw [if_neg hieq]
        exact hD i hi

/-- The states reachable from a table by the mutating API: `insert_vector`
(with either allocation-oracle outcome) and `delete_vector`.  The scans do
not mutate the table.  The natural number counts successful inserts. -/
inductive Reach (α : Type) (t0 : Table α) : Table α → ℕ → Prop where
  | refl : Reach α t0 t0 0
  | insert_succ (t : Table α) (k : ℕ) (ok : Bool) (v : Vec) :
      Reach α t0 t k → (insert_vector α ok t v).1 ≠ -1 →
      Reach α t0 (insert_vector α ok t v).2 (k + 1)
  | insert_fail (t : Table α) (k : ℕ) (ok : Bool) (v : Vec) :
      Reach α t0 t k → (insert_vector α ok t v).1 = -1 →
      Reach α t0 (insert_vector α ok t v).2 k
  | del (t : Table α) (k : ℕ) (id : ℤ) :
      Reach α t0 t k → Reach α t0 (delete_vector α t id).2 k

/-- Every state reachable from a freshly opened table satisfies the table
invariant for its count of successful inserts, and keeps the original
`svec_size`. -/
theorem Reach_TableInv (α : Type) (dims cm : ℕ) (worst : α)
    (bet : α → α → Bool) (cmp : Vec → Vec → ℕ → α)
    (hN : 0 < SVEC_SIZE (align_dims dims)) (t : Table α) (k : ℕ)
    (hR : Reach α (victor_table_core α dims cm worst bet cmp) t k) :
    TableInv α t k ∧ t.svec_size = SVEC_SIZE (align_dims dims) := by
  induction hR with
  | refl => exact ⟨TableInv_base α dims cm worst bet cmp, rfl⟩
  | insert_succ t' k' ok v hr hne ih =>
    obtain ⟨hInv, hsz⟩ := ih
    have hN' : 0 < t'.svec_size := by rw [hsz]; exact hN
    refine ⟨(TableInv_insert α t' k' hN' hInv ok v).2 hne, ?_⟩
    rw [insert_svec_size]
    exact hsz
  | insert_fail t' k' ok v hr heq ih =>
    obtain ⟨hInv, hsz⟩ := ih
    have hN' : 0 < t'.svec_size := by rw [hsz]; exact hN
    have hstate := (TableInv_insert α t' k' hN' hInv ok v).1 heq
    rw [hstate]
    exact ⟨hInv, hsz⟩
  | del t' k' id hr ih =>
    obtain ⟨hInv, hsz⟩ := ih
    refine ⟨TableInv_delete α t' k' id hInv, ?_⟩
    rw [delete_svec_size]
    exact hsz

/-- Below the global capacity, an insert with a working allocator succeeds. -/
theorem insert_succeeds (α : Type) (t : Table α) (k : ℕ)
    (hN : 0 < t.svec_size) (hInv : TableInv α t k)
    (hkcap : k < MAX_BUCKETS * t.svec_size) (v : Vec) :
    (insert_vector α true t v).1 ≠ -1 := by
  obtain ⟨hA, hB, ⟨b, hb, hk, hble⟩, hD, hE⟩ := hInv
  have hE128 : t.index < 128 := by simpa [MAX_BUCKETS] using hE
  unfold insert_vector
  rw [hb]
  dsimp only
  by_cases hfull : t.svec_size ≤ b.index
  · have hiw : b.index = t.svec_size := Nat.le_antisymm hble hfull
    have hcap : t.index + 1 < MAX_BUCKETS := by
      have hkeq : k = (t.index + 1) * t.svec_size := by rw [hk, hiw]; ring
      rw [hkeq] at hkcap
      exact (Nat.mul_lt_mul_right hN).1 hkcap
    have hcap128 : t.index + 1 < 128 := by simpa [MAX_BUCKETS] using hcap
    rw [if_pos hfull, if_pos hcap, if_pos rfl]
    rw [append_vec_fst]
    have h2 : (0 : ℤ) ≤ encode_vector_id (↑(t.index + 1)) (↑(alloc_bucket t.svec_size).index) :=
      encode_nonneg _ _ (by omega) (by omega) (by omega)
    omega
  · rw [if_neg hfull]
    rw [append_vec_fst]
    have h2 : (0 : ℤ) ≤ encode_vector_id (↑t.index) (↑b.index) :=
      encode_nonneg _ _ (by omega) (by omega) (by omega)
    omega

/-- At the global capacity `MAX_BUCKETS * N` the next insert fails with
`-1` (the Capacity path: bucket 127 full, no further bucket allowed). -/
theorem insert_fails_at_cap (α : Type) (t : Table α)
    (hN : 0 < t.svec_size) (hInv : TableInv α t (MAX_BUCKETS * t.svec_size))
    (ok : Bool) (v : Vec) :
    (insert_vector α ok t v).1 = -1 := by
  obtain ⟨hA, hB, ⟨b, hb, hk, hble⟩, hD, hE⟩ := hInv
  have hidx : t.index = 127 := by
    rw [hA, if_neg (by simp [MAX_BUCKETS]; omega)]
    have hsplit : MAX_BUCKETS * t.svec_size - 1 = (t.svec_size - 1) + 127 * t.svec_size := by
      simp only [MAX_BUCKETS]
      omega
    rw [hsplit, Nat.add_mul_div_right _ _ hN, Nat.div_eq_of_lt (by omega), Nat.zero_add]
  have hfullk : b.index = t.svec_size := by
    rw [hidx] at hk
    simp only [MAX_BUCKETS] at hk
    omega
  unfold insert_vector
  rw [hb]
  dsimp only
  rw [if_pos (Nat.le_of_eq hfullk.symm),
    if_neg (by rw [hidx]; simp [MAX_BUCKETS])]

/-- Iterated `insert_vector` with a working allocator and a fixed vector. -/
def insert_iter (α : Type) (t0 : Table α) (v : Vec) : ℕ → Table α
  | 0 => t0
  | k + 1 => (insert_vector α true (insert_iter α t0 v k) v).2

/-- C3: For a table opened with dimension `D` (so `N = ⌊STORE_SIZE/(D'·4)⌋`
slots per bucket, `MAX_BUCKETS = 128`), assuming no allocation failure,
exactly `MAX_BUCKETS · N` consecutive insert calls succeed, and the very
next insert fails with Capacity (returns `-1`). -/
theorem claim_C3_capacity (α : Type) (dims cm : ℕ) (worst : α)
    (bet : α → α → Bool) (cmp : Vec → Vec → ℕ → α) (v : Vec)
    (hN : 0 < SVEC_SIZE (align_dims dims)) :
    (∀ j : ℕ, j < MAX_BUCKETS * SVEC_SIZE (align_dims dims) →
      (insert_vector α true
        (insert_iter α (victor_table_core α dims cm worst bet cmp) v j) v).1 ≠ -1) ∧
    (insert_vector α true
      (insert_iter α (victor_table_core α dims cm worst bet cmp) v
        (MAX_BUCKETS * SVEC_SIZE (align_dims dims))) v).1 = -1 := by
  have main : ∀ j : ℕ, j ≤ MAX_BUCKETS * SVEC_SIZE (align_dims dims) →
      TableInv α (insert_iter α (victor_table_core α dims cm worst bet cmp) v j) j ∧
      (insert_iter α (victor_table_core α dims cm worst bet cmp) v j).svec_size =
        SVEC_SIZE (align_dims dims) := by
    intro j
    induction j with
    | zero => exact fun _ => ⟨TableInv_base α dims cm worst bet cmp, rfl⟩
    | succ j ih =>
      intro hj
      obtain ⟨hInv, hsz⟩ := ih (by omega)
      have hN' : 0 < (insert_iter α (victor_table_core α dims cm worst bet cmp) v j).svec_size := by
        rw [hsz]; exact hN
      have hsucc := insert_succeeds α _ j hN' hInv (by rw [hsz]; omega) v
      refine ⟨(TableInv_insert α _ j hN' hInv true v).2 hsucc, ?_⟩
      show (insert_vector α true _ v).2.svec_size = _
      rw [insert_svec_size]
      exact hsz
  constructor
  · intro j hj
    obtain ⟨hInv, hsz⟩ := main j (Nat.le_of_lt hj)
    exact insert_succeeds α _ j (by rw [hsz]; exact hN) hInv (by rw [hsz]; exact hj) v
  · obtain ⟨hInv, hsz⟩ := main _ (Nat.le_refl _)
    have hInv' : TableInv α
        (insert_iter α (victor_table_core α dims cm worst bet cmp) v
          (MAX_BUCKETS * SVEC_SIZE (align_dims dims)))
        (MAX_BUCKETS *
          (insert_iter α (victor_table_core α dims cm worst bet cmp) v
            (MAX_BUCKETS * SVEC_SIZE (align_dims dims))).svec_size) := by
      rw [hsz]
      exact hInv
    exact insert_fails_at_cap α _ (by rw [hsz]; exact hN) hInv' true v

/-- C3 witness: with `D = 262144` we get `D' = 262144` and `N = 1`, so the
129th insert (after `128 · 1` successful ones) fails. -/
theorem claim_C3_capacity_witness :
    0 < SVEC_SIZE (align_dims 262144) ∧
    (insert_vector (WithTop ℚ) true
      (insert_iter (WithTop ℚ)
        (victor_table_core (WithTop ℚ) 262144 1 ⊤ euclidean_distance_best euclidean_distance)
        cV1 (MAX_BUCKETS * SVEC_SIZE (align_dims 262144))) cV1).1 = -1 :=
  ⟨by norm_num [SVEC_SIZE, align_dims, STORE_SIZE],
   (claim_C3_capacity (WithTop ℚ) 262144 1 ⊤ euclidean_distance_best euclidean_distance cV1
     (by norm_num [SVEC_SIZE, align_dims, STORE_SIZE])).2⟩

/-- An insert never shrinks any existing bucket's high-water mark (given the
invariant, which rules out overwriting an allocated bucket on rollover). -/
theorem insert_buckets_mono (α : Type) (t : Table α) (k : ℕ)
    (hInv : TableInv α t k) (ok : Bool) (v : Vec) (i : ℕ) (b : Bucket)
    (hb : t.buckets i = some b) :
    ∃ b' : Bucket, (insert_vector α ok t v).2.buckets i = some b' ∧
      b.index ≤ b'.index := by
  obtain ⟨hA, hB, ⟨bc, hbc, hk, hble⟩, hD, hE⟩ := hInv
  have hile : i ≤ t.index := by
    by_contra hgt
    rw [hD i (by omega)] at hb
    exact Option.noConfusion hb
  unfold insert_vector
  rw [hbc]
  dsimp only
  by_cases hfull : t.svec_size ≤ bc.index
  · by_cases hcap : t.index + 1 < MAX_BUCKETS
    · cases ok with
      | false =>
        rw [if_pos hfull, if_pos hcap]
        exact ⟨b, hb, Nat.le_refl _⟩
      | true =>
        rw [if_pos hfull, if_pos hcap, if_pos rfl, append_vec_snd_buckets,
          if_neg (show ¬ (i = t.index + 1) by omega)]
        exact ⟨b, hb, Nat.le_refl _⟩
    · rw [if_pos hfull, if_neg hcap]
      exact ⟨b, hb, Nat.le_refl _⟩
  · rw [if_neg hfull, append_vec_snd_buckets]
    by_cases hieq : i = t.index
    · have hbb : b = bc := by
        rw [hieq] at hb
        rw [hbc] at hb
        exact (Option.some.inj hb).symm
      rw [if_pos hieq]
      exact ⟨append_bucket t.dims bc v, rfl, by rw [append_bucket_index, hbb]; omega⟩
    · rw [if_neg hieq]
      exact ⟨b, hb, Nat.le_refl _⟩

/-- A delete never changes any bucket's high-water mark. -/
theorem delete_buckets_mono (α : Type) (t : Table α) (id : ℤ) (i : ℕ) (b : Bucket)
    (hb : t.buckets i = some b) :
    ∃ b' : Bucket, (delete_vector α t id).2.buckets i = some b' ∧
      b.index ≤ b'.index := by
  rcases delete_vector_snd_cases α t id with h | ⟨b2, hb2, h⟩
  · rw [h]
    exact ⟨b, hb, Nat.le_refl _⟩
  · rw [h]
    try dsimp only
    by_cases hieq : i = (decode_bucket id).toNat
    · have hbb : b = b2 := by
        rw [hieq] at hb
        rw [hb2] at hb
        exact (Option.some.inj hb).symm
      rw [if_pos hieq]
      exact ⟨delete_slot_bucket b2 (decode_slot id).toNat, rfl,
        by show b.index ≤ b2.index; rw [hbb]⟩
    · rw [if_neg hieq]
      exact ⟨b, hb, Nat.le_refl _⟩

/-- C4: After any operation sequence containing `k ≥ 1` successful inserts
(interleaved with any deletes — searches do not mutate), the table satisfies:
`cur_bucket = ⌊(k-1)/N⌋`; every bucket before the current one is full
(`high_water = N`); every bucket up to the current one is allocated and every
bucket past it is not; and no operation ever decreases a bucket's high-water
mark. -/
theorem claim_C4_monotone_filling (α : Type) (dims cm : ℕ) (worst : α)
    (bet : α → α → Bool) (cmp : Vec → Vec → ℕ → α) (t : Table α) (k : ℕ)
    (hN : 0 < SVEC_SIZE (align_dims dims))
    (hR : Reach α (victor_table_core α dims cm worst bet cmp) t k)
    (hk1 : 1 ≤ k) :
    t.index = (k - 1) / t.svec_size ∧
    (∀ i : ℕ, i < t.index → ∃ b : Bucket, t.buckets i = some b ∧ b.index = t.svec_size) ∧
    (∀ i : ℕ, i ≤ t.index → ∃ b : Bucket, t.buckets i = some b) ∧
    (∀ i : ℕ, t.index < i → t.buckets i = none) ∧
    (∀ (ok : Bool) (v : Vec) (i : ℕ) (b : Bucket), t.buckets i = some b →
      ∃ b' : Bucket, (insert_vector α ok t v).2.buckets i = some b' ∧ b.index ≤ b'.index) ∧
    (∀ (id : ℤ) (i : ℕ) (b : Bucket), t.buckets i = some b →
      ∃ b' : Bucket, (delete_vector α t id).2.buckets i = some b' ∧ b.index ≤ b'.index) := by
  obtain ⟨hInv, hsz⟩ := Reach_TableInv α dims cm worst bet cmp hN t k hR
  obtain ⟨hA, hB, ⟨bc, hbc, hk, hble⟩, hD, hE⟩ := hInv
  refine ⟨?_, hB, ?_, hD, ?_, ?_⟩
  · rw [hA, if_neg (by omega)]
  · intro i hi
    rcases Nat.lt_or_ge i t.index with hlt | hge
    · obtain ⟨b2, hb2, _⟩ := hB i hlt
      exact ⟨b2, hb2⟩
    · have hieq : i = t.index := by omega
      rw [hieq]
      exact ⟨bc, hbc⟩
  · exact fun ok v i b hb =>
      insert_buckets_mono α t k ⟨hA, hB, ⟨bc, hbc, hk, hble⟩, hD, hE⟩ ok v i b hb
  · exact fun id i b hb => delete_buckets_mono α t id i b hb

/-- C4 witness: the table `cT1` (one successful insert into a fresh
dimension-1 L2 table) is reachable with `k = 1`, and the invariants hold. -/
theorem claim_C4_monotone_filling_witness :
    0 < SVEC_SIZE (align_dims 1) ∧
    Reach (WithTop ℚ)
      (victor_table_core (WithTop ℚ) 1 1 ⊤ euclidean_distance_best euclidean_distance)
      cT1 1 ∧
    cT1.index = (1 - 1) / cT1.svec_size := by
  have hfst : (insert_vector (WithTop ℚ) true (victor_tableL2 1) cV1).1 ≠ -1 := by
    norm_num [insert_vector, victor_tableL2, victor_table_core, alloc_bucket,
      append_vec, append_bucket, encode_vector_id, toInt8, toInt32,
      SVEC_SIZE, STORE_SIZE, align_dims, MAX_BUCKETS]
  have hR : Reach (WithTop ℚ)
      (victor_table_core (WithTop ℚ) 1 1 ⊤ euclidean_distance_best euclidean_distance)
      cT1 1 :=
    Reach.insert_succ (victor_tableL2 1) 0 true cV1 Reach.refl hfst
  refine ⟨by norm_num [SVEC_SIZE, STORE_SIZE, align_dims], hR, ?_⟩
  exact (claim_C4_monotone_filling (WithTop ℚ) 1 1 ⊤ euclidean_distance_best
    euclidean_distance cT1 1 (by norm_num [SVEC_SIZE, STORE_SIZE, align_dims])
    hR (Nat.le_refl 1)).1

/-- C8: When insert fails — either because all `MAX_BUCKETS` buckets are
full (Capacity: current bucket full and `index + 1 = MAX_BUCKETS`) or
because allocation of a new bucket fails (OutOfMemory: `alloc_ok = false`) —
it returns `-1`, these are the only failure modes, and the table's state
(hence `cur_bucket`, every bucket's high-water mark, and every stored
vector) is exactly as before the call. -/
theorem claim_C8_insert_failure_unchanged (α : Type) (t : Table α) (b : Bucket)
    (ok : Bool) (v : Vec) (hb : t.buckets t.index = some b)
    (hidx : t.index < MAX_BUCKETS) :
    ((insert_vector α ok t v).1 = -1 ↔
      (t.svec_size ≤ b.index ∧ (t.index + 1 = MAX_BUCKETS ∨ ok = false))) ∧
    ((insert_vector α ok t v).1 = -1 → (insert_vector α ok t v).2 = t) := by
  have hidx128 : t.index < 128 := by simpa [MAX_BUCKETS] using hidx
  unfold insert_vector
  rw [hb]
  dsimp only
  by_cases hfull : t.svec_size ≤ b.index
  · by_cases hcap : t.index + 1 < MAX_BUCKETS
    · have hne : t.index + 1 ≠ MAX_BUCKETS := by omega
      cases ok with
      | false =>
        rw [if_pos hfull, if_pos hcap, if_neg (by simp)]
        exact ⟨by simp [hfull], fun _ => rfl⟩
      | true =>
        rw [if_pos hfull, if_pos hcap, if_pos rfl, append_vec_fst]
        have hcap128 : t.index + 1 < 128 := by simpa [MAX_BUCKETS] using hcap
        have h2 : (0 : ℤ) ≤ encode_vector_id (↑(t.index + 1)) (↑(alloc_bucket t.svec_size).index) :=
          encode_nonneg _ _ (by omega) (by omega) (by omega)
        constructor
        · constructor
          · intro h1; omega
          · rintro ⟨-, hor⟩
            rcases hor with h | h
            · exact absurd h hne
            · exact Bool.noConfusion h
        · intro h1; omega
    · have heq : t.index + 1 = MAX_BUCKETS := by
        simp only [MAX_BUCKETS] at *
        omega
      rw [if_pos hfull, if_neg hcap]
      exact ⟨by simp [hfull, heq], fun _ => rfl⟩
  · rw [if_neg hfull, append_vec_fst]
    have h2 : (0 : ℤ) ≤ encode_vector_id (↑t.index) (↑b.index) :=
      encode_nonneg _ _ (by omega) (by omega) (by omega)
    constructor
    · constructor
      · intro h1; omega
      · rintro ⟨hf, -⟩
        exact absurd hf hfull
    · intro h1; omega

/-- C8 witness at the fresh dimension-1 L2 table (hypotheses: the current
bucket pointer exists and the bucket index is in range). -/
theorem claim_C8_insert_failure_unchanged_witness :
    (victor_tableL2 1).buckets (victor_tableL2 1).index =
      some (alloc_bucket (SVEC_SIZE (align_dims 1))) ∧
    (victor_tableL2 1).index < MAX_BUCKETS ∧
    (((insert_vector (WithTop ℚ) false (victor_tableL2 1) cV1).1 = -1 ↔
      ((victor_tableL2 1).svec_size ≤ (alloc_bucket (SVEC_SIZE (align_dims 1))).index ∧
        ((victor_tableL2 1).index + 1 = MAX_BUCKETS ∨ false = false))) ∧
    ((insert_vector (WithTop ℚ) false (victor_tableL2 1) cV1).1 = -1 →
      (insert_vector (WithTop ℚ) false (victor_tableL2 1) cV1).2 = victor_tableL2 1)) := by
  refine ⟨rfl, by norm_num [victor_tableL2, victor_table_core, MAX_BUCKETS], ?_⟩
  exact claim_C8_insert_failure_unchanged (WithTop ℚ) (victor_tableL2 1)
    (alloc_bucket (SVEC_SIZE (align_dims 1))) false cV1 rfl
    (by norm_num [victor_tableL2, victor_table_core, MAX_BUCKETS])

/-- The id of a successful insert, by the branch taken: either the next slot
of the current bucket, or slot 0 of the freshly allocated bucket. -/
theorem insert_fst_cases (α : Type) (t : Table α) (ok : Bool) (v : Vec)
    (b : Bucket) (hb : t.buckets t.index = some b) :
    (insert_vector α ok t v).1 = -1 ∨
    (insert_vector α ok t v).1 = encode_vector_id (↑t.index) (↑b.index) ∨
    ((insert_vector α ok t v).1 = encode_vector_id (↑(t.index + 1)) 0 ∧
      t.index + 1 < MAX_BUCKETS) := by
  unfold insert_vector
  rw [hb]
  dsimp only
  by_cases hfull : t.svec_size ≤ b.index
  · by_cases hcap : t.index + 1 < MAX_BUCKETS
    · cases ok with
      | false =>
        rw [if_pos hfull, if_pos hcap, if_neg (by simp)]
        exact Or.inl rfl
      | true =>
        rw [if_pos hfull, if_pos hcap, if_pos rfl, append_vec_fst]
        exact Or.inr (Or.inr ⟨rfl, hcap⟩)
    · rw [if_pos hfull, if_neg hcap]
      exact Or.inl rfl
  · rw [if_neg hfull, append_vec_fst]
    exact Or.inr (Or.inl rfl)

/-- C10: Every id returned by a successful insert on a reachable table state
is non-negative — the bucket index never reaches 128, so the sign bit of the
encoded id is clear — and hence the sentinel `-1` (used for both "no match"
and insert failure) can never equal the id of a stored vector. -/
theorem claim_C10_insert_id_nonneg (α : Type) (dims cm : ℕ) (worst : α)
    (bet : α → α → Bool) (cmp : Vec → Vec → ℕ → α) (t : Table α) (k : ℕ)
    (ok : Bool) (v : Vec)
    (hN : 0 < SVEC_SIZE (align_dims dims))
    (hR : Reach α (victor_table_core α dims cm worst bet cmp) t k)
    (hne : (insert_vector α ok t v).1 ≠ -1) :
    0 ≤ (insert_vector α ok t v).1 ∧ t.index < MAX_BUCKETS := by
  obtain ⟨⟨hA, hB, ⟨b, hb, hk, hble⟩, hD, hE⟩, hsz⟩ :=
    Reach_TableInv α dims cm worst bet cmp hN t k hR
  have hE128 : t.index < 128 := by simpa [MAX_BUCKETS] using hE
  refine ⟨?_, hE⟩
  rcases insert_fst_cases α t ok v b hb with h | h | ⟨h, hcap⟩
  · exact absurd h hne
  · rw [h]
    exact encode_nonneg _ _ (by omega) (by omega) (by omega)
  · rw [h]
    have hcap128 : t.index + 1 < 128 := by simpa [MAX_BUCKETS] using hcap
    exact encode_nonneg _ _ (by omega) (by omega) (by omega)

/-- C10 witness: the first insert into a fresh dimension-1 L2 table. -/
theorem claim_C10_insert_id_nonneg_witness :
    0 < SVEC_SIZE (align_dims 1) ∧
    (insert_vector (WithTop ℚ) true (victor_tableL2 1) cV1).1 ≠ -1 ∧
    (0 ≤ (insert_vector (WithTop ℚ) true (victor_tableL2 1) cV1).1 ∧
      (victor_tableL2 1).index < MAX_BUCKETS) := by
  have hfst : (insert_vector (WithTop ℚ) true (victor_tableL2 1) cV1).1 ≠ -1 := by
    norm_num [insert_vector, victor_tableL2, victor_table_core, alloc_bucket,
      append_vec, append_bucket, encode_vector_id, toInt8, toInt32,
      SVEC_SIZE, STORE_SIZE, align_dims, MAX_BUCKETS]
  refine ⟨by norm_num [SVEC_SIZE, STORE_SIZE, align_dims], hfst, ?_⟩
  exact claim_C10_insert_id_nonneg (WithTop ℚ) 1 1 ⊤ euclidean_distance_best
    euclidean_distance (victor_tableL2 1) 0 true cV1
    (by norm_num [SVEC_SIZE, STORE_SIZE, align_dims]) Reach.refl hfst

/-- Every candidate of a scan is a live slot: an allocated bucket at index
`bi ≤ table->index`, a slot `si` below its high-water mark with a non-null
pointer, and the candidate id is `encode(bi, si)`. -/
theorem candidates_mem (α : Type) (t : Table α) (c : ℤ × Vec)
    (hc : c ∈ candidates α t) :
    ∃ (bi si : ℕ) (bk : Bucket), bi < t.index + 1 ∧ t.buckets bi = some bk ∧
      si < bk.index ∧ bk.svec si = some c.2 ∧
      c.1 = encode_vector_id (↑bi) (↑si) := by
  unfold candidates at hc
  obtain ⟨bi, hbi, hmem⟩ := List.mem_flatMap.1 hc
  have hbir : bi < t.index + 1 := List.mem_range.1 hbi
  cases hbk : t.buckets bi with
  | none =>
    rw [hbk] at hmem
    exact absurd hmem (List.not_mem_nil c)
  | some bk =>
    rw [hbk] at hmem
    unfold bucket_candidates at hmem
    obtain ⟨si, hsi, hmap⟩ := List.mem_filterMap.1 hmem
    have hsir : si < bk.index := List.mem_range.1 hsi
    cases hsv : bk.svec si with
    | none =>
      rw [hsv] at hmap
      simp at hmap
    | some w =>
      rw [hsv] at hmap
      simp only [Option.map_some', Option.some.injEq] at hmap
      refine ⟨bi, si, bk, hbir, hbk, hsir, ?_, ?_⟩
      · rw [hsv, ← hmap]
      · rw [← hmap]

/-- The id produced by the top-1 fold is the initial id or some candidate's
id. -/
theorem foldl_top1_id (α : Type) (t : Table α) (q : Vec) :
    ∀ (cs : List (ℤ × Vec)) (init : MatchResult α),
      (cs.foldl (top1_step α t q) init).id = init.id ∨
      ∃ c ∈ cs, (cs.foldl (top1_step α t q) init).id = c.1
  | [], init => Or.inl rfl
  | c :: cs, init => by
    rw [List.foldl_cons]
    have hstep : (top1_step α t q init c).id = init.id ∨
        (top1_step α t q init c).id = c.1 := by
      unfold top1_step
      dsimp only
      split
      · exact Or.inr rfl
      · exact Or.inl rfl
    rcases foldl_top1_id α t q cs (top1_step α t q init c) with h | ⟨c', hc', h⟩
    · rcases hstep with h2 | h2
      · exact Or.inl (h.trans h2)
      · exact Or.inr ⟨c, List.mem_cons_self c cs, h.trans h2⟩
    · exact Or.inr ⟨c', List.mem_cons_of_mem c hc', h⟩

/-- The id returned by `search_better_match` is `-1` or a live candidate's
id. -/
theorem search_better_match_id_cases (α : Type) (t : Table α) (q : Vec) :
    (search_better_match α t q).id = -1 ∨
    ∃ c ∈ candidates α t, (search_better_match α t q).id = c.1 := by
  unfold search_better_match
  exact foldl_top1_id α t q (candidates α t) { id := -1, distance := t.worst_match_value }

/-- A per-candidate update only ever adds the candidate itself. -/
theorem updateN_mem (α : Type) (better : α → α → Bool) (c r : MatchResult α) :
    ∀ l : List (MatchResult α), r ∈ updateN α better c l → r = c ∨ r ∈ l
  | [], hr => by simp [updateN] at hr
  | x :: xs, hr => by
    simp only [updateN] at hr
    by_cases hb : better c.distance x.distance = true
    · rw [if_pos hb] at hr
      cases xs with
      | nil =>
        simp at hr
        exact Or.inl hr
      | cons y ys =>
        rcases List.mem_cons.1 hr with h | h
        · exact Or.inl h
        · exact Or.inr ((chop_sublist α (x :: y :: ys)).subset h)
    · rw [if_neg hb] at hr
      rcases List.mem_cons.1 hr with h | h
      · exact Or.inr (by rw [h]; exact List.mem_cons_self x xs)
      · rcases updateN_mem α better c r xs h with h2 | h2
        · exact Or.inl h2
        · exact Or.inr (List.mem_cons_of_mem x h2)

/-- Every entry of a `search_better_n_match` result has id `-1` (the
padding sentinel) or the id of a live candidate. -/
theorem search_better_n_match_id_cases (α : Type) (t : Table α) (q : Vec)
    (n : ℕ) (r : MatchResult α) (hr : r ∈ search_better_n_match α t q n) :
    r.id = -1 ∨ ∃ c ∈ candidates α t, r.id = c.1 := by
  unfold search_better_n_match at hr
  have main : ∀ (cs : List (ℤ × Vec)), (∀ c ∈ cs, c ∈ candidates α t) →
      ∀ R : List (MatchResult α),
      (∀ r' ∈ R, r'.id = -1 ∨ ∃ c ∈ candidates α t, r'.id = c.1) →
      ∀ r' ∈ cs.foldl (fun R c => updateN α t.is_better_match
        { id := c.1, distance := t.compare_vectors c.2 q t.dims_aligned } R) R,
        r'.id = -1 ∨ ∃ c ∈ candidates α t, r'.id = c.1 := by
    intro cs
    induction cs with
    | nil => intro _ R hR r' hr'; exact hR r' hr'
    | cons c cs ih =>
      intro hsub R hR r' hr'
      rw [List.foldl_cons] at hr'
      refine ih (fun c' hc' => hsub c' (List.mem_cons_of_mem c hc')) _ ?_ r' hr'
      intro r2 hr2
      rcases updateN_mem α t.is_better_match _ r2 R hr2 with h | h
      · exact Or.inr ⟨c, hsub c (List.mem_cons_self c cs), by rw [h]⟩
      · exact hR r2 h
  refine main (candidates α t) (fun c h => h) _ ?_ r hr
  intro r' hr'
  rw [List.eq_of_mem_replicate hr']
  exact Or.inl rfl

/-- Structural well-formedness used for the delete-permanence argument:
in-range current bucket, sane per-bucket slot count (`svec_size` positive and
at most `STORE_SIZE`, every high-water ≤ `svec_size`), and no allocated
bucket past the current one.  All states built by the constructor and the
mutating API satisfy it. -/
def WFTable (α : Type) (t : Table α) : Prop :=
  t.index < MAX_BUCKETS ∧ 0 < t.svec_size ∧ t.svec_size ≤ STORE_SIZE ∧
  (∀ (i : ℕ) (b : Bucket), t.buckets i = some b → b.index ≤ t.svec_size) ∧
  (∀ i : ℕ, t.index < i → t.buckets i = none)

/-- A nulled slot: the bucket exists but the slot pointer is null.  Once a
slot is in this state it never leaves it. -/
def SlotNulled (α : Type) (t : Table α) (bi si : ℕ) : Prop :=
  ∃ b : Bucket, t.buckets bi = some b ∧ b.svec si = none

/-- Insert preserves well-formedness. -/
theorem WFTable_insert (α : Type) (t : Table α) (ok : Bool) (v : Vec)
    (h : WFTable α t) : WFTable α (insert_vector α ok t v).2 := by
  obtain ⟨h1, h2, h3, h4, h5⟩ := h
  unfold insert_vector
  cases hb : t.buckets t.index with
  | none => exact ⟨h1, h2, h3, h4, h5⟩
  | some b =>
    dsimp only
    by_cases hfull : t.svec_size ≤ b.index
    · by_cases hcap : t.index + 1 < MAX_BUCKETS
      · cases ok with
        | false =>
          rw [if_pos hfull, if_pos hcap, if_neg (by simp)]
          exact ⟨h1, h2, h3, h4, h5⟩
        | true =>
          rw [if_pos hfull, if_pos hcap, if_pos rfl]
          refine ⟨?_, h2, h3, ?_, ?_⟩
          · rw [append_vec_snd_index]
            exact hcap
          · intro i b2 hb2
            rw [append_vec_snd_buckets] at hb2
            by_cases hieq : i = t.index + 1
            · rw [if_pos hieq] at hb2
              have hbb := Option.some.inj hb2
              rw [append_vec_snd_svec_size]
              rw [← hbb, append_bucket_index]
              show (alloc_bucket t.svec_size).index + 1 ≤ t.svec_size
              show 0 + 1 ≤ t.svec_size
              omega
            · rw [if_neg hieq] at hb2
              rw [append_vec_snd_svec_size]
              exact h4 i b2 hb2
          · intro i hi
            rw [append_vec_snd_index] at hi
            rw [append_vec_snd_buckets, if_neg (show ¬ (i = t.index + 1) by omega)]
            exact h5 i (by omega)
      · rw [if_pos hfull, if_neg hcap]
        exact ⟨h1, h2, h3, h4, h5⟩
    · rw [if_neg hfull]
      refine ⟨?_, h2, h3, ?_, ?_⟩
      · rw [append_vec_snd_index]
        exact h1
      · intro i b2 hb2
        rw [append_vec_snd_buckets] at hb2
        by_cases hieq : i = t.index
        · rw [if_pos hieq] at hb2
          have hbb := Option.some.inj hb2
          rw [append_vec_snd_svec_size, ← hbb, append_bucket_index]
          omega
        · rw [if_neg hieq] at hb2
          rw [append_vec_snd_svec_size]
          exact h4 i b2 hb2
      · intro i hi
        rw [append_vec_snd_index] at hi
        rw [append_vec_snd_buckets, if_neg (show ¬ (i = t.index) by omega)]
        exact h5 i hi

/-- Delete preserves well-formedness. -/
theorem WFTable_delete (α : Type) (t : Table α) (id : ℤ)
    (h : WFTable α t) : WFTable α (delete_vector α t id).2 := by
  obtain ⟨h1, h2, h3, h4, h5⟩ := h
  rcases delete_vector_snd_cases α t id with heq | ⟨b, hb, heq⟩
  · rw [heq]
    exact ⟨h1, h2, h3, h4, h5⟩
  · rw [heq]
    refine ⟨h1, h2, h3, ?_, ?_⟩
    · intro i b2 hb2
      try dsimp only at hb2
      by_cases hieq : i = (decode_bucket id).toNat
      · rw [if_pos hieq] at hb2
        have hbb := Option.some.inj hb2
        show b2.index ≤ t.svec_size
        rw [← hbb]
        show b.index ≤ t.svec_size
        exact h4 _ b hb
      · rw [if_neg hieq] at hb2
        exact h4 i b2 hb2
    · intro i hi
      try dsimp only at hi
      try dsimp only
      by_cases hieq : i = (decode_bucket id).toNat
      · exfalso
        have hnone := h5 i hi
        rw [hieq] at hnone
        rw [hnone] at hb
        exact Option.noConfusion hb
      · rw [if_neg hieq]
        exact h5 i hi

/-- Insert never resurrects a nulled slot (for well-formed tables). -/
theorem SlotNulled_insert (α : Type) (t : Table α) (ok : Bool) (v : Vec)
    (bi si : ℕ) (hwf : WFTable α t) (hn : SlotNulled α t bi si) :
    SlotNulled α (insert_vector α ok t v).2 bi si := by
  obtain ⟨h1, h2, h3, h4, h5⟩ := hwf
  obtain ⟨bn, hbn, hsn⟩ := hn
  have hbile : bi ≤ t.index := by
    by_contra hgt
    rw [h5 bi (by omega)] at hbn
    exact Option.noConfusion hbn
  unfold insert_vector
  cases hb : t.buckets t.index with
  | none => exact ⟨bn, hbn, hsn⟩
  | some b =>
    dsimp only
    by_cases hfull : t.svec_size ≤ b.index
    · by_cases hcap : t.index + 1 < MAX_BUCKETS
      · cases ok with
        | false =>
          rw [if_pos hfull, if_pos hcap, if_neg (by simp)]
          exact ⟨bn, hbn, hsn⟩
        | true =>
          rw [if_pos hfull, if_pos hcap, if_pos rfl]
          refine ⟨bn, ?_, hsn⟩
          rw [append_vec_snd_buckets, if_neg (show ¬ (bi = t.index + 1) by omega)]
          exact hbn
      · rw [if_pos hfull, if_neg hcap]
        exact ⟨bn, hbn, hsn⟩
    · rw [if_neg hfull]
      by_cases hieq : bi = t.index
      · have hbb : bn = b := by
          rw [hieq] at hbn
          rw [hb] at hbn
          exact (Option.some.inj hbn).symm
        have hsnb : b.svec si = none := by rw [← hbb]; exact hsn
        refine ⟨append_bucket t.dims b v, ?_, ?_⟩
        · rw [append_vec_snd_buckets, if_pos hieq]
        · unfold append_bucket
          dsimp only
          cases hsv : b.svec b.index with
          | none =>
            exact hsnb
          | some w =>
            dsimp only
            have hne : si ≠ b.index := by
              intro hsieq
              rw [← hsieq] at hsv
              rw [hsnb] at hsv
              exact Option.noConfusion hsv
            rw [if_neg hne]
            exact hsnb
      · refine ⟨bn, ?_, hsn⟩
        rw [append_vec_snd_buckets, if_neg hieq]
        exact hbn

/-- Delete never resurrects a nulled slot. -/
theorem SlotNulled_delete (α : Type) (t : Table α) (id : ℤ) (bi si : ℕ)
    (hn : SlotNulled α t bi si) :
    SlotNulled α (delete_vector α t id).2 bi si := by
  obtain ⟨bn, hbn, hsn⟩ := hn
  rcases delete_vector_snd_cases α t id with heq | ⟨b, hb, heq⟩
  · rw [heq]
    exact ⟨bn, hbn, hsn⟩
  · rw [heq]
    try dsimp only
    by_cases hieq : bi = (decode_bucket id).toNat
    · have hbb : bn = b := by
        rw [hieq] at hbn
        rw [hb] at hbn
        exact (Option.some.inj hbn).symm
      refine ⟨delete_slot_bucket b (decode_slot id).toNat, ?_, ?_⟩
      · show (if bi = (decode_bucket id).toNat
            then some (delete_slot_bucket b (decode_slot id).toNat)
            else t.buckets bi) = some (delete_slot_bucket b (decode_slot id).toNat)
        rw [if_pos hieq]
      unfold delete_slot_bucket
      dsimp only
      by_cases hjeq : si = (decode_slot id).toNat
      · rw [if_pos hjeq]
      · rw [if_neg hjeq, ← hbb]
        exact hsn
    · refine ⟨bn, ?_, hsn⟩
      show (if bi = (decode_bucket id).toNat
          then some (delete_slot_bucket b (decode_slot id).toNat)
          else t.buckets bi) = some bn
      rw [if_neg hieq]
      exact hbn

/-- Operation sequences after a given state: reflexive-transitive closure of
the two mutating operations (searches do not change the state). -/
inductive Steps (α : Type) : Table α → Table α → Prop where
  | refl (t : Table α) : Steps α t t
  | insert (t t' : Table α) (ok : Bool) (v : Vec) :
      Steps α t t' → Steps α t (insert_vector α ok t' v).2
  | del (t t' : Table α) (id : ℤ) :
      Steps α t t' → Steps α t (delete_vector α t' id).2

/-- Well-formedness and slot-nulledness persist along any operation
sequence. -/
theorem Steps_preserve (α : Type) (t t' : Table α) (h : Steps α t t')
    (bi si : ℕ) (hwf : WFTable α t) (hn : SlotNulled α t bi si) :
    WFTable α t' ∧ SlotNulled α t' bi si := by
  induction h with
  | refl => exact ⟨hwf, hn⟩
  | insert t2 ok v hs ih =>
    obtain ⟨hwf2, hn2⟩ := ih
    exact ⟨WFTable_insert α t2 ok v hwf2, SlotNulled_insert α t2 ok v bi si hwf2 hn2⟩
  | del t2 id hs ih =>
    obtain ⟨hwf2, hn2⟩ := ih
    exact ⟨WFTable_delete α t2 id hwf2, SlotNulled_delete α t2 id bi si hn2⟩

/-- The guard of `delete_vector` (victor.c line 306): the id decodes to an
allocated bucket and an in-range slot with a non-null pointer. -/
def delete_hits (α : Type) (t : Table α) (id : ℤ) : Prop :=
  0 ≤ decode_bucket id ∧ decode_bucket id < (MAX_BUCKETS : ℤ) ∧
  ∃ b : Bucket, t.buckets (decode_bucket id).toNat = some b ∧
    decode_slot id < (t.svec_size : ℤ) ∧
    b.svec (decode_slot id).toNat ≠ none

/-- A delete whose guard fails is a strict no-op on the state. -/
theorem delete_noop_of_not_hits (α : Type) (t : Table α) (id : ℤ)
    (h : ¬ delete_hits α t id) : (delete_vector α t id).2 = t := by
  unfold delete_vector
  by_cases h1 : 0 ≤ decode_bucket id ∧ decode_bucket id < (MAX_BUCKETS : ℤ)
  · rw [if_pos h1]
    cases hb : t.buckets (decode_bucket id).toNat with
    | none => rfl
    | some b =>
      dsimp only
      by_cases h2 : decode_slot id < (t.svec_size : ℤ)
      · rw [if_pos h2]
        cases hsv : b.svec (decode_slot id).toNat with
        | none => rfl
        | some w =>
          exact absurd ⟨h1.1, h1.2, b, hb, h2, by rw [hsv]; exact fun hx => Option.noConfusion hx⟩ h
      · rw [if_neg h2]
  · rw [if_neg h1]

/-- Deleting the encoded id of a live slot nulls exactly that slot. -/
theorem delete_nulls (α : Type) (t : Table α) (bi si : ℕ) (bk : Bucket)
    (hb : t.buckets bi = some bk) (h128 : bi < 128) (hsv : si < t.svec_size)
    (hs24 : si < 16777216) (hsome : bk.svec si ≠ none) :
    SlotNulled α (delete_vector α t (encode_vector_id (↑bi) (↑si))).2 bi si := by
  have hdb : decode_bucket (encode_vector_id (↑bi) (↑si)) = (↑bi : ℤ) :=
    decode_bucket_encode _ _ (by omega) (by omega) (by omega) (by omega)
  have hds : decode_slot (encode_vector_id (↑bi) (↑si)) = (↑si : ℤ) :=
    decode_slot_encode _ _ (by omega) (by omega) (by omega) (by omega)
  unfold delete_vector
  rw [hdb, hds]
  rw [if_pos (show (0 : ℤ) ≤ ↑bi ∧ (↑bi : ℤ) < (MAX_BUCKETS : ℤ) by
    simp only [MAX_BUCKETS]; omega)]
  rw [Int.toNat_natCast, Int.toNat_natCast, hb]
  dsimp only
  rw [if_pos (show (↑si : ℤ) < (↑t.svec_size : ℤ) by omega)]
  cases hsv2 : bk.svec si with
  | none => exact absurd hsv2 hsome
  | some w =>
    refine ⟨delete_slot_bucket bk si, ?_, ?_⟩
    · show (if bi = bi then some (delete_slot_bucket bk si) else t.buckets bi) = _
      rw [if_pos rfl]
    · unfold delete_slot_bucket
      dsimp only
      rw [if_pos rfl]

/-- In-range encoded ids are injective. -/
theorem encode_inj (b1 s1 b2 s2 : ℤ)
    (hb1 : 0 ≤ b1) (hb1' : b1 < 128) (hs1 : 0 ≤ s1) (hs1' : s1 < 16777216)
    (hb2 : 0 ≤ b2) (hb2' : b2 < 128) (hs2 : 0 ≤ s2) (hs2' : s2 < 16777216)
    (h : encode_vector_id b1 s1 = encode_vector_id b2 s2) :
    b1 = b2 ∧ s1 = s2 := by
  constructor
  · rw [← decode_bucket_encode b1 s1 hb1 hb1' hs1 hs1', h,
      decode_bucket_encode b2 s2 hb2 hb2' hs2 hs2']
  · rw [← decode_slot_encode b1 s1 hb1 hb1' hs1 hs1', h,
      decode_slot_encode b2 s2 hb2 hb2' hs2 hs2']

/-- On a well-formed table, no live candidate carries the encoded id of a
nulled slot. -/
theorem candidate_id_ne_nulled (α : Type) (t : Table α) (c : ℤ × Vec)
    (hc : c ∈ candidates α t) (bi si : ℕ) (hwf : WFTable α t)
    (hn : SlotNulled α t bi si) (h128 : bi < 128) (hs24 : si < 16777216) :
    c.1 ≠ encode_vector_id (↑bi) (↑si) := by
  obtain ⟨h1, h2, h3, h4, h5⟩ := hwf
  obtain ⟨bn, hbn, hsn⟩ := hn
  obtain ⟨b2, s2, bk2, hb2r, hb2, hs2r, hsv2, hcid2⟩ := candidates_mem α t c hc
  intro heq
  rw [hcid2] at heq
  have h1' : t.index < 128 := by simpa [MAX_BUCKETS] using h1
  have h3' : t.svec_size ≤ 1048576 := by simpa [STORE_SIZE] using h3
  have hle2 : bk2.index ≤ t.svec_size := h4 b2 bk2 hb2
  obtain ⟨hbeq, hseq⟩ := encode_inj (↑b2) (↑s2) (↑bi) (↑si)
    (by omega) (by omega) (by omega) (by omega)
    (by omega) (by omega) (by omega) (by omega) heq
  have hb2i : b2 = bi := by exact_mod_cast hbeq
  have hs2i : s2 = si := by exact_mod_cast hseq
  rw [hb2i] at hb2
  rw [hbn] at hb2
  have hbk : bn = bk2 := Option.some.inj hb2
  rw [hs2i] at hsv2
  rw [← hbk] at hsv2
  rw [hsn] at hsv2
  exact Option.noConfusion hsv2

/-- The top-1 scan on a well-formed table never returns the encoded id of a
nulled slot. -/
theorem search_ne_nulled (α : Type) (t : Table α) (q : Vec) (bi si : ℕ)
    (hwf : WFTable α t) (hn : SlotNulled α t bi si) (h128 : bi < 128)
    (hs24 : si < 16777216) :
    (search_better_match α t q).id ≠ encode_vector_id (↑bi) (↑si) := by
  intro heq
  rcases search_better_match_id_cases α t q with hid | ⟨c, hc, hcid⟩
  · rw [heq] at hid
    have := encode_nonneg (↑bi) (↑si) (by omega) (by omega) (by omega)
    omega
  · rw [hcid] at heq
    exact candidate_id_ne_nulled α t c hc bi si hwf hn h128 hs24 heq

/-- No entry of a top-N result on a well-formed table carries the encoded id
of a nulled slot. -/
theorem search_n_ne_nulled (α : Type) (t : Table α) (q : Vec) (n : ℕ)
    (bi si : ℕ) (hwf : WFTable α t) (hn : SlotNulled α t bi si)
    (h128 : bi < 128) (hs24 : si < 16777216) (r : MatchResult α)
    (hr : r ∈ search_better_n_match α t q n) :
    r.id ≠ encode_vector_id (↑bi) (↑si) := by
  intro heq
  rcases search_better_n_match_id_cases α t q n r hr with hid | ⟨c, hc, hcid⟩
  · rw [heq] at hid
    have := encode_nonneg (↑bi) (↑si) (by omega) (by omega) (by omega)
    omega
  · rw [hcid] at heq
    exact candidate_id_ne_nulled α t c hc bi si hwf hn h128 hs24 heq

/-- The reachability invariant implies the structural well-formedness used
by the delete-permanence argument. -/
theorem WFTable_of_TableInv (α : Type) (t : Table α) (k : ℕ)
    (hInv : TableInv α t k) (hsz : t.svec_size ≤ STORE_SIZE)
    (hpos : 0 < t.svec_size) : WFTable α t := by
  obtain ⟨hA, hB, ⟨bc, hbc, hk, hble⟩, hD, hE⟩ := hInv
  refine ⟨hE, hpos, hsz, ?_, hD⟩
  intro i b hb
  rcases Nat.lt_trichotomy i t.index with hlt | heq | hgt
  · obtain ⟨b2, hb2, hbi2⟩ := hB i hlt
    rw [hb2] at hb
    rw [← Option.some.inj hb]
    omega
  · rw [heq] at hb
    rw [hbc] at hb
    rw [← Option.some.inj hb]
    exact hble
  · rw [hD i hgt] at hb
    exact Option.noConfusion hb

/-- C7 (amended): `delete(id)` always returns success (0); a delete whose
guard fails (out-of-range id, unallocated bucket, out-of-range slot, or
already-null slot pointer) leaves the table unchanged; and after deleting
the id of a currently *live* slot, no subsequent `search` or `search_n` —
across any further sequence of inserts and deletes — ever returns that id.
(The original claim fails for the sentinel `-1`, which an empty search still
returns after `delete(-1)`; for ids of allocated-but-unassigned slots, whose
deletion nulls the slot pointer and is not a no-op; and for ids of buckets
not yet allocated, which deletion does not retire and which later inserts
can make live.) -/
theorem claim_C7_delete_success_and_permanence (α : Type) :
    (∀ (t : Table α) (id : ℤ), (delete_vector α t id).1 = 0) ∧
    (∀ (t : Table α) (id : ℤ), ¬ delete_hits α t id → (delete_vector α t id).2 = t) ∧
    (∀ (t t' : Table α) (bi si : ℕ) (bk : Bucket) (q : Vec) (n : ℕ)
      (r : MatchResult α),
      WFTable α t → t.buckets bi = some bk → bi ≤ t.index → si < bk.index →
      bk.svec si ≠ none →
      Steps α (delete_vector α t (encode_vector_id (↑bi) (↑si))).2 t' →
      (search_better_match α t' q).id ≠ encode_vector_id (↑bi) (↑si) ∧
      (r ∈ search_better_n_match α t' q n →
        r.id ≠ encode_vector_id (↑bi) (↑si))) := by
  refine ⟨fun t id => delete_vector_fst α t id,
    fun t id h => delete_noop_of_not_hits α t id h, ?_⟩
  intro t t' bi si bk q n r hwf hb hbile hsilt hsome hsteps
  have h128 : bi < 128 := by
    have := hwf.1
    simp only [MAX_BUCKETS] at this
    omega
  have hsvlt : si < t.svec_size :=
    Nat.lt_of_lt_of_le hsilt (hwf.2.2.2.1 bi bk hb)
  have hs24 : si < 16777216 := by
    have h3 := hwf.2.2.1
    simp only [STORE_SIZE] at h3
    omega
  have hnull := delete_nulls α t bi si bk hb h128 hsvlt hs24 hsome
  have hwf1 := WFTable_delete α t (encode_vector_id (↑bi) (↑si)) hwf
  obtain ⟨hwf', hnull'⟩ := Steps_preserve α _ t' hsteps bi si hwf1 hnull
  exact ⟨search_ne_nulled α t' q bi si hwf' hnull' h128 hs24,
    fun hr => search_n_ne_nulled α t' q n bi si hwf' hnull' h128 hs24 r hr⟩

/-- C7 witness: delete the live id `encode(0,0) = 0` from `cT1` and search
immediately — the search does not return 0, and the hypotheses hold. -/
theorem claim_C7_delete_success_and_permanence_witness :
    WFTable (WithTop ℚ) cT1 ∧
    cT1.buckets 0 =
      some (append_bucket 1 (alloc_bucket (SVEC_SIZE (align_dims 1))) cV1) ∧
    (search_better_match (WithTop ℚ)
      (delete_vector (WithTop ℚ) cT1
        (encode_vector_id ((0 : ℕ) : ℤ) ((0 : ℕ) : ℤ))).2 cV1).id ≠
      encode_vector_id ((0 : ℕ) : ℤ) ((0 : ℕ) : ℤ) := by
  have hfst : (insert_vector (WithTop ℚ) true (victor_tableL2 1) cV1).1 ≠ -1 := by
    norm_num [insert_vector, victor_tableL2, victor_table_core, alloc_bucket,
      append_vec, append_bucket, encode_vector_id, toInt8, toInt32,
      SVEC_SIZE, STORE_SIZE, align_dims, MAX_BUCKETS]
  have hR : Reach (WithTop ℚ)
      (victor_table_core (WithTop ℚ) 1 1 ⊤ euclidean_distance_best euclidean_distance)
      cT1 1 :=
    Reach.insert_succ (victor_tableL2 1) 0 true cV1 Reach.refl hfst
  have hInv := (Reach_TableInv (WithTop ℚ) 1 1 ⊤ euclidean_distance_best
    euclidean_distance (by norm_num [SVEC_SIZE, STORE_SIZE, align_dims]) cT1 1 hR).1
  have hsz : cT1.svec_size ≤ STORE_SIZE := by
    norm_num [cT1, victor_tableL2, victor_table_core, insert_vector, append_vec,
      alloc_bucket, SVEC_SIZE, STORE_SIZE, align_dims, MAX_BUCKETS]
  have hpos : 0 < cT1.svec_size := by
    norm_num [cT1, victor_tableL2, victor_table_core, insert_vector, append_vec,
      alloc_bucket, SVEC_SIZE, STORE_SIZE, align_dims, MAX_BUCKETS]
  have hwf : WFTable (WithTop ℚ) cT1 := WFTable_of_TableInv (WithTop ℚ) cT1 1 hInv hsz hpos
  have hb : cT1.buckets 0 =
      some (append_bucket 1 (alloc_bucket (SVEC_SIZE (align_dims 1))) cV1) := by
    simp [cT1, victor_tableL2, victor_table_core, insert_vector, append_vec,
      alloc_bucket, SVEC_SIZE, STORE_SIZE, align_dims, MAX_BUCKETS]
  refine ⟨hwf, hb, ?_⟩
  have hsilt : 0 < (append_bucket 1 (alloc_bucket (SVEC_SIZE (align_dims 1))) cV1).index := by
    simp [append_bucket, alloc_bucket]
  have hsome : (append_bucket 1 (alloc_bucket (SVEC_SIZE (align_dims 1))) cV1).svec 0 ≠
      none := by
    simp [append_bucket, alloc_bucket, SVEC_SIZE, STORE_SIZE, align_dims]
  exact ((claim_C7_delete_success_and_permanence (WithTop ℚ)).2.2 cT1 _ 0 0
    (append_bucket 1 (alloc_bucket (SVEC_SIZE (align_dims 1))) cV1) cV1 1
    { id := -1, distance := ⊤ } hwf hb (Nat.zero_le _) hsilt hsome
    (Steps.refl _)).1

/-- A dimension-262144 L2 table (`D' = 262144`, so `N = 1` slot per
bucket), used to exhibit bucket rollover after a stray delete. -/
def cR0 : Table (WithTop ℚ) := victor_tableL2 262144

/-- `cR0` after `delete(2^24)` (a no-op: bucket 1 is not allocated) and an
insert of `[1, 0, ...]`, which fills bucket 0. -/
def cR1 : Table (WithTop ℚ) :=
  (insert_vector (WithTop ℚ) true (delete_vector (WithTop ℚ) cR0 16777216).2 cV1).2

/-- `cR1` after inserting the zero vector, which rolls over into bucket 1,
slot 0 — the slot addressed by the previously deleted id `2^24`. -/
def cR2 : Table (WithTop ℚ) := (insert_vector (WithTop ℚ) true cR1 cV0).2

/-- C7 counterexample.  Three concrete violations of the claim as stated:
(i) `delete(-1)` returns 0 and is a no-op, yet an immediately following
`search` on the still-empty table returns `-1` — the deleted id — as its
no-match sentinel; (ii) `delete(1)` (bucket 0, slot 1: allocated but never
assigned, hence an unknown id) is *not* a silent no-op — it nulls the slot
pointer and changes the table state; (iii) `delete(2^24)` (bucket 1, not yet
allocated) really is a no-op, and after two inserts roll the table over into
bucket 1 a `search` returns exactly the previously deleted id `2^24`. -/
theorem claim_C7_counterexample :
    (delete_vector (WithTop ℚ) (victor_tableL2 1) (-1)).1 = 0 ∧
    (delete_vector (WithTop ℚ) (victor_tableL2 1) (-1)).2 = victor_tableL2 1 ∧
    (search_better_match (WithTop ℚ)
      (delete_vector (WithTop ℚ) (victor_tableL2 1) (-1)).2 cV0).id = -1 ∧
    (delete_vector (WithTop ℚ) (victor_tableL2 1) 1).2 ≠ victor_tableL2 1 ∧
    (delete_vector (WithTop ℚ) cR0 16777216).2 = cR0 ∧
    (search_better_match (WithTop ℚ) cR2 cV0).id = 16777216 := by
  refine ⟨rfl, rfl, ?_, ?_, rfl, ?_⟩
  · rw [show (delete_vector (WithTop ℚ) (victor_tableL2 1) (-1)).2 =
      victor_tableL2 1 from rfl]
    simp [search_better_match, candidates, bucket_candidates, victor_tableL2,
      victor_table_core, alloc_bucket, List.range_succ]
  · intro heq
    have hdb : decode_bucket 1 = 0 := by decide
    have hds : decode_slot 1 = 1 := by decide
    have h2 := congrArg
      (fun tb : Table (WithTop ℚ) => (tb.buckets 0).bind (fun bk => bk.svec 1)) heq
    simp [delete_vector, delete_slot_bucket, hdb, hds, victor_tableL2,
      victor_table_core, alloc_bucket, MAX_BUCKETS, SVEC_SIZE, STORE_SIZE,
      align_dims, zeroVec] at h2
  · have hcR1 : cR1 = (insert_vector (WithTop ℚ) true cR0 cV1).2 := by
      show (insert_vector (WithTop ℚ) true
        (delete_vector (WithTop ℚ) cR0 16777216).2 cV1).2 =
        (insert_vector (WithTop ℚ) true cR0 cV1).2
      rw [show (delete_vector (WithTop ℚ) cR0 16777216).2 = cR0 from rfl]
    have hcands : candidates (WithTop ℚ) cR2 =
        [(0, padVec 262144 cV1), (16777216, padVec 262144 cV0)] := by
      norm_num [cR2, hcR1, cR0, victor_tableL2, victor_table_core, insert_vector,
        append_vec, append_bucket, alloc_bucket, candidates, bucket_candidates,
        List.range_succ, List.filterMap_cons, List.filterMap_nil,
        SVEC_SIZE, STORE_SIZE, align_dims, MAX_BUCKETS,
        encode_vector_id, toInt8, toInt32, zeroVec]
    have hd1 : euclidean_distance (padVec 262144 cV1) cV0 262144 =
        ((1 : ℚ) : WithTop ℚ) := by
      unfold euclidean_distance
      have hsum : (Finset.range 262144).sum
          (fun i => (padVec 262144 cV1 i - cV0 i) ^ 2) = 1 := by
        rw [Finset.sum_eq_single 0]
        · norm_num [padVec, cV1, cV0]
        · intro b hb hbne
          simp [padVec, cV1, cV0, hbne]
        · intro h0
          exact absurd (Finset.mem_range.2 (by norm_num)) h0
      rw [hsum]
    have hd2 : euclidean_distance (padVec 262144 cV0) cV0 262144 =
        ((0 : ℚ) : WithTop ℚ) := by
      unfold euclidean_distance
      have hsum : (Finset.range 262144).sum
          (fun i => (padVec 262144 cV0 i - cV0 i) ^ 2) = 0 := by
        apply Finset.sum_eq_zero
        intro i _
        simp [padVec, cV0]
      rw [hsum]
    have hda : cR2.dims_aligned = 262144 := rfl
    have hcv : cR2.compare_vectors = euclidean_distance := rfl
    have hib : cR2.is_better_match = euclidean_distance_best := rfl
    have hw : cR2.worst_match_value = (⊤ : WithTop ℚ) := rfl
    unfold search_better_match
    rw [hcands]
    simp only [List.foldl_cons, List.foldl_nil, top1_step, hda, hcv, hib, hw, hd1, hd2]
    norm_num [euclidean_distance_best]

/-- `insert_vector` only changes `index` and `buckets`. -/
theorem insert_fields (α : Type) (ok : Bool) (t : Table α) (v : Vec) :
    (insert_vector α ok t v).2.dims = t.dims ∧
    (insert_vector α ok t v).2.dims_aligned = t.dims_aligned ∧
    (insert_vector α ok t v).2.worst_match_value = t.worst_match_value ∧
    (insert_vector α ok t v).2.is_better_match = t.is_better_match ∧
    (insert_vector α ok t v).2.compare_vectors = t.compare_vectors := by
  unfold insert_vector append_vec
  cases t.buckets t.index
  · exact ⟨rfl, rfl, rfl, rfl, rfl⟩
  · dsimp only
    split
    · split
      · split
        · exact ⟨rfl, rfl, rfl, rfl, rfl⟩
        · exact ⟨rfl, rfl, rfl, rfl, rfl⟩
      · exact ⟨rfl, rfl, rfl, rfl, rfl⟩
    · exact ⟨rfl, rfl, rfl, rfl, rfl⟩

/-- Appending to a bucket whose target slot pointer is intact adds exactly
one candidate at the end of its live-slot listing. -/
theorem bucket_candidates_append (dims : ℕ) (idx : ℕ) (b : Bucket) (v : Vec)
    (w : Vec) (hw : b.svec b.index = some w) :
    bucket_candidates idx (append_bucket dims b v) =
      bucket_candidates idx b ++
        [(encode_vector_id (↑idx) (↑b.index), padVec dims v)] := by
  unfold bucket_candidates append_bucket
  dsimp only
  rw [hw]
  dsimp only
  rw [List.range_succ, List.filterMap_append]
  congr 1
  · apply List.filterMap_congr
    intro j hj
    have hne : j ≠ b.index := by
      have := List.mem_range.1 hj
      omega
    rw [if_neg hne]
  · simp

/-- A successful insert appends exactly one candidate — the padded vector
with the returned id — to the table's scan order. -/
theorem insert_candidates (α : Type) (t : Table α) (v : Vec) (b : Bucket)
    (hb : t.buckets t.index = some b) (hN : 0 < t.svec_size)
    (hslot : t.svec_size ≤ b.index ∨ b.svec b.index ≠ none)
    (hsucc : (insert_vector α true t v).1 ≠ -1) :
    candidates α (insert_vector α true t v).2 =
      candidates α t ++ [((insert_vector α true t v).1, padVec t.dims v)] := by
  unfold insert_vector
  rw [hb]
  dsimp only
  by_cases hfull : t.svec_size ≤ b.index
  · by_cases hcap : t.index + 1 < MAX_BUCKETS
    · rw [if_pos hfull, if_pos hcap, if_pos rfl]
      rw [append_vec_fst]
      unfold candidates
      rw [append_vec_snd_index, List.range_succ, List.flatMap_append]
      congr 1
      · apply List.flatMap_congr
        intro i hi
        have hne : i ≠ t.index + 1 := by
          have := List.mem_range.1 hi
          omega
        rw [append_vec_snd_buckets, if_neg hne]
      · simp only [List.flatMap_cons, List.flatMap_nil, List.append_nil]
        rw [append_vec_snd_buckets, if_pos rfl]
        dsimp only
        have hz : (alloc_bucket t.svec_size).svec
            (alloc_bucket t.svec_size).index = some zeroVec := by
          unfold alloc_bucket
          dsimp only
          rw [if_pos hN]
        rw [bucket_candidates_append t.dims (t.index + 1)
          (alloc_bucket t.svec_size) v zeroVec hz]
        have hempty : bucket_candidates (t.index + 1) (alloc_bucket t.svec_size) = [] := by
          unfold bucket_candidates alloc_bucket
          simp
        rw [hempty]
        simp [append_vec_snd_index]
    · exfalso
      apply hsucc
      unfold insert_vector
      rw [hb]
      dsimp only
      rw [if_pos hfull, if_neg hcap]
  · have hsome : ∃ w, b.svec b.index = some w := by
      rcases hslot with h | h
      · exact absurd h hfull
      · cases hsv : b.svec b.index with
        | none => exact absurd hsv h
        | some w => exact ⟨w, rfl⟩
    obtain ⟨w, hw⟩ := hsome
    rw [if_neg hfull, append_vec_fst]
    unfold candidates
    rw [append_vec_snd_index, List.range_succ,
      List.flatMap_append, List.flatMap_append, List.append_assoc]
    congr 1
    · apply List.flatMap_congr
      intro i hi
      have hne : i ≠ t.index := by
        have := List.mem_range.1 hi
        omega
      rw [append_vec_snd_buckets, if_neg hne]
    · simp only [List.flatMap_cons, List.flatMap_nil, List.append_nil]
      rw [append_vec_snd_buckets, if_pos rfl, hb]
      dsimp only
      exact bucket_candidates_append t.dims t.index b v w hw

/-- The score held by the top-1 fold is the initial score or some
candidate's score. -/
theorem foldl_top1_distance (α : Type) (t : Table α) (q : Vec) :
    ∀ (cs : List (ℤ × Vec)) (init : MatchResult α),
      (cs.foldl (top1_step α t q) init).distance = init.distance ∨
      ∃ c ∈ cs, (cs.foldl (top1_step α t q) init).distance =
        t.compare_vectors c.2 q t.dims_aligned
  | [], init => Or.inl rfl
  | c :: cs, init => by
    rw [List.foldl_cons]
    have hstep : (top1_step α t q init c).distance = init.distance ∨
        (top1_step α t q init c).distance =
          t.compare_vectors c.2 q t.dims_aligned := by
      unfold top1_step
      dsimp only
      split
      · exact Or.inr rfl
      · exact Or.inl rfl
    rcases foldl_top1_distance α t q cs (top1_step α t q init c) with h | ⟨c', hc', h⟩
    · rcases hstep with h2 | h2
      · exact Or.inl (h.trans h2)
      · exact Or.inr ⟨c, List.mem_cons_self c cs, h.trans h2⟩
    · exact Or.inr ⟨c', List.mem_cons_of_mem c hc', h⟩

/-- C2 (amended), L2 half: inserting `v` (zero-padded past `dims` by the
caller) into an L2 table whose pending slot is intact, when no earlier live
vector coincides with `v` on the aligned prefix, makes the immediate
`search(v)` return the new id with score 0. -/
theorem l2_insert_then_search (t : Table (WithTop ℚ)) (v : Vec) (b : Bucket)
    (hL2c : t.compare_vectors = euclidean_distance)
    (hL2b : t.is_better_match = euclidean_distance_best)
    (hL2w : t.worst_match_value = ⊤)
    (hb : t.buckets t.index = some b)
    (hN : 0 < t.svec_size)
    (hslot : t.svec_size ≤ b.index ∨ b.svec b.index ≠ none)
    (hsucc : (insert_vector (WithTop ℚ) true t v).1 ≠ -1)
    (hpad : ∀ i : ℕ, t.dims ≤ i → v i = 0)
    (hnodup : ∀ c ∈ candidates (WithTop ℚ) t, ∃ i, i < t.dims_aligned ∧ c.2 i ≠ v i) :
    search_better_match (WithTop ℚ) (insert_vector (WithTop ℚ) true t v).2 v =
      { id := (insert_vector (WithTop ℚ) true t v).1,
        distance := ((0 : ℚ) : WithTop ℚ) } := by
  obtain ⟨hdims, hdal, hwv, hibm, hcv⟩ := insert_fields (WithTop ℚ) true t v
  have hcv' : (insert_vector (WithTop ℚ) true t v).2.compare_vectors =
      euclidean_distance := by rw [hcv, hL2c]
  have hibm' : (insert_vector (WithTop ℚ) true t v).2.is_better_match =
      euclidean_distance_best := by rw [hibm, hL2b]
  have hwv' : (insert_vector (WithTop ℚ) true t v).2.worst_match_value =
      (⊤ : WithTop ℚ) := by rw [hwv, hL2w]
  have htmp : euclidean_distance (padVec t.dims v) v t.dims_aligned =
      ((0 : ℚ) : WithTop ℚ) := by
    unfold euclidean_distance
    rw [Finset.sum_eq_zero]
    intro i _
    unfold padVec
    by_cases hid : i < t.dims
    · rw [if_pos hid]
      ring
    · rw [if_neg hid, hpad i (by omega)]
      ring
  have hc := insert_candidates (WithTop ℚ) t v b hb hN hslot hsucc
  unfold search_better_match
  rw [hc, List.foldl_append]
  simp only [List.foldl_cons, List.foldl_nil]
  generalize hgen : List.foldl
    (top1_step (WithTop ℚ) (insert_vector (WithTop ℚ) true t v).2 v)
    { id := -1,
      distance := (insert_vector (WithTop ℚ) true t v).2.worst_match_value }
    (candidates (WithTop ℚ) t) = S
  have hdist := foldl_top1_distance (WithTop ℚ)
    (insert_vector (WithTop ℚ) true t v).2 v (candidates (WithTop ℚ) t)
    { id := -1,
      distance := (insert_vector (WithTop ℚ) true t v).2.worst_match_value }
  rw [hgen] at hdist
  have hS : ((0 : ℚ) : WithTop ℚ) < S.distance := by
    rcases hdist with h | ⟨c, hcm, h⟩
    · rw [h]
      dsimp only
      rw [hwv']
      exact WithTop.coe_lt_top 0
    · rw [h, hcv', hdal]
      obtain ⟨i, hiD, hne⟩ := hnodup c hcm
      unfold euclidean_distance
      rw [WithTop.coe_lt_coe]
      apply Finset.sum_pos'
      · intro j _
        positivity
      · refine ⟨i, Finset.mem_range.2 hiD, ?_⟩
        have hsub : c.2 i - v i ≠ 0 := sub_ne_zero.2 hne
        exact (sq_nonneg _).lt_of_ne (Ne.symm (pow_ne_zero 2 hsub))
  unfold top1_step
  dsimp only
  rw [hcv', hdal, htmp, hibm']
  rw [if_pos (show euclidean_distance_best ((0 : ℚ) : WithTop ℚ) S.distance = true
    from decide_eq_true hS)]

/-- C2 (amended), cosine half: inserting a non-zero `v` (zero-padded past
`dims`) into a cosine table whose pending slot is intact, when no earlier
live vector reaches cosine similarity 1 with `v`, makes the immediate
`search(v)` return the new id with a score within `1e-5` of `1` (exactly
`1`). -/
theorem cosine_insert_then_search (t : Table ℝ) (v : Vec) (b : Bucket)
    (hCc : t.compare_vectors = cosine_similarity)
    (hCb : t.is_better_match = cosine_similarity_best)
    (hCw : t.worst_match_value = -1)
    (hb : t.buckets t.index = some b)
    (hN : 0 < t.svec_size)
    (hslot : t.svec_size ≤ b.index ∨ b.svec b.index ≠ none)
    (hsucc : (insert_vector ℝ true t v).1 ≠ -1)
    (hpad : ∀ i : ℕ, t.dims ≤ i → v i = 0)
    (hdims : t.dims ≤ t.dims_aligned)
    (hnz : ∃ i, i < t.dims ∧ v i ≠ 0)
    (hnocol : ∀ c ∈ candidates ℝ t,
      cosine_similarity c.2 v t.dims_aligned < 1) :
    ∃ s : ℝ,
      search_better_match ℝ (insert_vector ℝ true t v).2 v =
        { id := (insert_vector ℝ true t v).1, distance := s } ∧
      |s - 1| ≤ 1 / 100000 := by
  obtain ⟨hdims', hdal, hwv, hibm, hcv⟩ := insert_fields ℝ true t v
  have hcv' : (insert_vector ℝ true t v).2.compare_vectors = cosine_similarity := by
    rw [hcv, hCc]
  have hibm' : (insert_vector ℝ true t v).2.is_better_match =
      cosine_similarity_best := by rw [hibm, hCb]
  have hwv' : (insert_vector ℝ true t v).2.worst_match_value = (-1 : ℝ) := by
    rw [hwv, hCw]
  have hpv : ∀ i : ℕ, padVec t.dims v i = v i := by
    intro i
    unfold padVec
    by_cases hid : i < t.dims
    · rw [if_pos hid]
    · rw [if_neg hid, hpad i (by omega)]
  have hSpos : (0 : ℝ) < (Finset.range t.dims_aligned).sum
      (fun i => ((v i : ℚ) : ℝ) ^ 2) := by
    obtain ⟨i0, hi0, hv0⟩ := hnz
    apply Finset.sum_pos'
    · intro j _
      positivity
    · refine ⟨i0, Finset.mem_range.2 (by omega), ?_⟩
      have hvc : ((v i0 : ℚ) : ℝ) ≠ 0 := by
        exact_mod_cast hv0
      exact (sq_nonneg _).lt_of_ne (Ne.symm (pow_ne_zero 2 hvc))
  have hcos : cosine_similarity (padVec t.dims v) v t.dims_aligned = 1 := by
    unfold cosine_similarity
    dsimp only
    have hnum : (Finset.range t.dims_aligned).sum
        (fun i => ((padVec t.dims v i : ℚ) : ℝ) * ((v i : ℚ) : ℝ)) =
        (Finset.range t.dims_aligned).sum (fun i => ((v i : ℚ) : ℝ) ^ 2) := by
      apply Finset.sum_congr rfl
      intro i _
      rw [hpv i]
      ring
    have hna : (Finset.range t.dims_aligned).sum
        (fun i => ((padVec t.dims v i : ℚ) : ℝ) ^ 2) =
        (Finset.range t.dims_aligned).sum (fun i => ((v i : ℚ) : ℝ) ^ 2) := by
      apply Finset.sum_congr rfl
      intro i _
      rw [hpv i]
    rw [hnum, hna]
    have hsq : Real.sqrt ((Finset.range t.dims_aligned).sum
        (fun i => ((v i : ℚ) : ℝ) ^ 2)) ≠ 0 :=
      (Real.sqrt_pos.2 hSpos).ne'
    rw [if_neg (by push_neg; exact ⟨hsq, hsq⟩)]
    rw [Real.mul_self_sqrt hSpos.le]
    exact div_self hSpos.ne'
  have hc := insert_candidates ℝ t v b hb hN hslot hsucc
  refine ⟨1, ?_, by norm_num⟩
  unfold search_better_match
  rw [hc, List.foldl_append]
  simp only [List.foldl_cons, List.foldl_nil]
  generalize hgen : List.foldl
    (top1_step ℝ (insert_vector ℝ true t v).2 v)
    { id := -1, distance := (insert_vector ℝ true t v).2.worst_match_value }
    (candidates ℝ t) = S
  have hdist := foldl_top1_distance ℝ (insert_vector ℝ true t v).2 v
    (candidates ℝ t)
    { id := -1, distance := (insert_vector ℝ true t v).2.worst_match_value }
  rw [hgen] at hdist
  have hS : S.distance < 1 := by
    rcases hdist with h | ⟨c, hcm, h⟩
    · rw [h]
      dsimp only
      rw [hwv']
      norm_num
    · rw [h, hcv', hdal]
      exact hnocol c hcm
  unfold top1_step
  dsimp only
  rw [hcv', hdal, hcos, hibm']
  rw [if_pos (show cosine_similarity_best 1 S.distance = true
    from decide_eq_true hS)]

/-- C2 (amended): For any non-zero vector `v` (zero-padded past the table's
dimension by the caller) inserted with resulting id `i` into a table whose
pending slot pointer is intact, an immediate `search(v)` on the otherwise
unchanged table returns `(i, 0)` under L2 mode — provided no earlier live
vector coincides with `v` on the aligned prefix — and `(i, s)` with `s`
within `1e-5` of `1.0` under cosine mode — provided no earlier live vector
attains cosine similarity `1` with `v`.  (Without the provisos the score
conclusions still hold but the returned id may be an earlier duplicate's,
as the counterexample shows.) -/
theorem claim_C2_insert_then_search (tL : Table (WithTop ℚ)) (tC : Table ℝ) :
    (∀ (v : Vec) (b : Bucket),
      tL.compare_vectors = euclidean_distance →
      tL.is_better_match = euclidean_distance_best →
      tL.worst_match_value = ⊤ →
      tL.buckets tL.index = some b →
      0 < tL.svec_size →
      (tL.svec_size ≤ b.index ∨ b.svec b.index ≠ none) →
      (insert_vector (WithTop ℚ) true tL v).1 ≠ -1 →
      (∀ i : ℕ, tL.dims ≤ i → v i = 0) →
      (∀ c ∈ candidates (WithTop ℚ) tL, ∃ i, i < tL.dims_aligned ∧ c.2 i ≠ v i) →
      search_better_match (WithTop ℚ) (insert_vector (WithTop ℚ) true tL v).2 v =
        { id := (insert_vector (WithTop ℚ) true tL v).1,
          distance := ((0 : ℚ) : WithTop ℚ) }) ∧
    (∀ (v : Vec) (b : Bucket),
      tC.compare_vectors = cosine_similarity →
      tC.is_better_match = cosine_similarity_best →
      tC.worst_match_value = -1 →
      tC.buckets tC.index = some b →
      0 < tC.svec_size →
      (tC.svec_size ≤ b.index ∨ b.svec b.index ≠ none) →
      (insert_vector ℝ true tC v).1 ≠ -1 →
      (∀ i : ℕ, tC.dims ≤ i → v i = 0) →
      tC.dims ≤ tC.dims_aligned →
      (∃ i, i < tC.dims ∧ v i ≠ 0) →
      (∀ c ∈ candidates ℝ tC, cosine_similarity c.2 v tC.dims_aligned < 1) →
      ∃ s : ℝ,
        search_better_match ℝ (insert_vector ℝ true tC v).2 v =
          { id := (insert_vector ℝ true tC v).1, distance := s } ∧
        |s - 1| ≤ 1 / 100000) :=
  ⟨fun v b h1 h2 h3 h4 h5 h6 h7 h8 h9 =>
      l2_insert_then_search tL v b h1 h2 h3 h4 h5 h6 h7 h8 h9,
   fun v b h1 h2 h3 h4 h5 h6 h7 h8 h9 h10 h11 =>
      cosine_insert_then_search tC v b h1 h2 h3 h4 h5 h6 h7 h8 h9 h10 h11⟩

/-- C2 witness: inserting `[1]` into a fresh dimension-1 table of each mode
and searching for it immediately. -/
theorem claim_C2_insert_then_search_witness :
    (insert_vector (WithTop ℚ) true (victor_tableL2 1) cV1).1 ≠ -1 ∧
    (insert_vector ℝ true (victor_tableCos 1) cV1).1 ≠ -1 ∧
    search_better_match (WithTop ℚ)
      (insert_vector (WithTop ℚ) true (victor_tableL2 1) cV1).2 cV1 =
      { id := (insert_vector (WithTop ℚ) true (victor_tableL2 1) cV1).1,
        distance := ((0 : ℚ) : WithTop ℚ) } ∧
    (∃ s : ℝ,
      search_better_match ℝ
        (insert_vector ℝ true (victor_tableCos 1) cV1).2 cV1 =
        { id := (insert_vector ℝ true (victor_tableCos 1) cV1).1, distance := s } ∧
      |s - 1| ≤ 1 / 100000) := by
  have hcempty : candidates (WithTop ℚ) (victor_tableL2 1) = [] := by
    simp [candidates, bucket_candidates, victor_tableL2, victor_table_core,
      alloc_bucket, List.range_succ]
  have hcemptyC : candidates ℝ (victor_tableCos 1) = [] := by
    simp [candidates, bucket_candidates, victor_tableCos, victor_table_core,
      alloc_bucket, List.range_succ]
  have hfstL : (insert_vector (WithTop ℚ) true (victor_tableL2 1) cV1).1 ≠ -1 := by
    norm_num [insert_vector, victor_tableL2, victor_table_core, alloc_bucket,
      append_vec, append_bucket, encode_vector_id, toInt8, toInt32,
      SVEC_SIZE, STORE_SIZE, align_dims, MAX_BUCKETS]
  have hfstC : (insert_vector ℝ true (victor_tableCos 1) cV1).1 ≠ -1 := by
    norm_num [insert_vector, victor_tableCos, victor_table_core, alloc_bucket,
      append_vec, append_bucket, encode_vector_id, toInt8, toInt32,
      SVEC_SIZE, STORE_SIZE, align_dims, MAX_BUCKETS]
  have hpadv : ∀ i : ℕ, 1 ≤ i → cV1 i = 0 := by
    intro i hi
    simp only [cV1]
    rw [if_neg (by omega)]
  refine ⟨hfstL, hfstC, ?_, ?_⟩
  · exact (claim_C2_insert_then_search (victor_tableL2 1) (victor_tableCos 1)).1
      cV1 (alloc_bucket (SVEC_SIZE (align_dims 1))) rfl rfl rfl rfl
      (by norm_num [victor_tableL2, victor_table_core, SVEC_SIZE, STORE_SIZE, align_dims])
      (Or.inr (by simp [alloc_bucket, SVEC_SIZE, STORE_SIZE, align_dims]))
      hfstL hpadv
      (by rw [hcempty]; intro c hc; exact absurd hc (List.not_mem_nil c))
  · exact (claim_C2_insert_then_search (victor_tableL2 1) (victor_tableCos 1)).2
      cV1 (alloc_bucket (SVEC_SIZE (align_dims 1))) rfl rfl rfl rfl
      (by norm_num [victor_tableCos, victor_table_core, SVEC_SIZE, STORE_SIZE, align_dims])
      (Or.inr (by simp [alloc_bucket, SVEC_SIZE, STORE_SIZE, align_dims]))
      hfstC hpadv
      (by norm_num [victor_tableCos, victor_table_core, align_dims])
      ⟨0, by norm_num [victor_tableCos, victor_table_core], by simp [cV1]⟩
      (by rw [hcemptyC]; intro c hc; exact absurd hc (List.not_mem_nil c))
